import Mathlib

/-!
Verification of the pasta source-preserving syntax-tree toolkit.

This file shallowly embeds the parts of the pasta code base that the
claims C1..C10 are about, translating the Python source faithfully:
pure functions become Lean functions, stateful code becomes explicit
state passing, Python exceptions become `Except` errors.  Modules of the
repository that are missing from the source tree (the formatting store
`pasta/base/formatting.py`, the scope analysis `pasta/base/scope.py`,
the stdlib tokenizer) are modelled from the specification and marked as
such in their doc comments.
-/

set_option autoImplicit false

namespace Pasta

/-- A Python runtime value as it appears in the node fields and
formatting records that the embedded code manipulates: strings,
integers, booleans and None. -/
inductive PyVal where
| str (s : String)
| int (n : Int)
| bool (b : Bool)
| none
deriving DecidableEq, Repr

/-- A Python exception.  Each constructor corresponds to one of the
exception classes raised by the embedded code; `unexpectedTok` is the
structured payload of the ValueError raised on a token mismatch (its
fields are exactly the arguments fed to the format string
"Expected %r but found %r, line %d: %s"). -/
inductive PyErr where
| valueErr (msg : String)
| unexpectedTok (expected : String) (found : String) (lineno : Nat) (line : String)
| invalidAst (msg : String)
| indexErr
| typeErr (msg : String)
| nameErr (name : String)
| attributeErr (name : String)
| keyErr
| assertionErr
| printError (msg : String)
deriving DecidableEq, Repr

/-- Decidable equality of embedded results, so witnesses can be
checked by evaluation. -/
instance {e a : Type} [DecidableEq e] [DecidableEq a] : DecidableEq (Except e a) :=
  fun x y =>
  match x, y with
  | .ok u, .ok w =>
    if h : u = w then isTrue (by rw [h])
    else isFalse (fun hh => by cases hh; exact h rfl)
  | .error u, .error w =>
    if h : u = w then isTrue (by rw [h])
    else isFalse (fun hh => by cases hh; exact h rfl)
  | .ok _, .error _ => isFalse (fun hh => Except.noConfusion hh)
  | .error _, .ok _ => isFalse (fun hh => Except.noConfusion hh)

/-- Python list indexing `l[i]`: negative indices count from the end,
out-of-range raises IndexError. -/
def pyListGet {α : Type} (l : List α) (i : Int) : Except PyErr α :=
  let j : Int := if i < 0 then i + l.length else i
  if h : 0 ≤ j ∧ j.toNat < l.length then .ok (l.get ⟨j.toNat, h.2⟩)
  else .error .indexErr

/-- Python substring test `sub in s` on lists of characters: the empty
pattern is contained in everything. -/
def listInfixOf (pat : List Char) : List Char → Bool
| [] => pat.isEmpty
| c :: cs => pat.isPrefixOf (c :: cs) || listInfixOf pat cs

/-- Python substring membership `sub in s` for strings. -/
def strIn (sub s : String) : Bool :=
  listInfixOf sub.toList s.toList

/-- Source location, a (row, column) pair with 1-based rows, as used by
the tokenize module. -/
abbrev Loc := Nat × Nat

/-- Python tuple comparison `a > b` on locations (lexicographic). -/
def locGT (a b : Loc) : Bool :=
  a.1 > b.1 || (a.1 = b.1 && a.2 > b.2)

/-- Token types of the tokenize module that the embedded code
distinguishes. -/
inductive TokType where
| NAME | OP | NUMBER | STRING | COMMENT | NL | NEWLINE | INDENT | DEDENT | ENDMARKER
deriving DecidableEq, Repr

/-- A token as produced by `tokenize.generate_tokens`: type tag, source
text, start and end locations and the full source line it appears on
(the namedtuple `Token` of pasta/base/token_generator.py).  The end
location is called `stop` because `end` is a Lean keyword. -/
structure Tok where
  type : TokType
  src : String
  start : Loc
  stop : Loc
  line : String
deriving DecidableEq, Repr

/-! ## C9: the bracket-hint counter of the token generator

`hint_open` and `hint_closed` from pasta/base/token_generator.py
(lines 266-274; the copy embedded in pasta/base/annotate.py lines
1101-1109 is identical). -/

/-- `TokenGenerator.hint_open`: `self._hints += 1`. -/
def hint_open (hints : Int) : Int := hints + 1

/-- `TokenGenerator.hint_closed`: `self._hints -= 1` followed by
`if self._hints < 0: raise ValueError('Hint value negative')`. -/
def hint_closed (hints : Int) : Except PyErr Int :=
  let h := hints - 1
  if h < 0 then .error (.valueErr "Hint value negative") else .ok h

/-- One call to the hint interface: either `hint_open` or
`hint_closed`. -/
inductive HintOp where
| opn
| cls
deriving DecidableEq, Repr

/-- Run a sequence of hint calls against the counter. -/
def runHints : List HintOp → Int → Except PyErr Int
| [], h => .ok h
| .opn :: ops, h => runHints ops (hint_open h)
| .cls :: ops, h =>
  match hint_closed h with
  | .ok h' => runHints ops h'
  | .error e => .error e

/-- Number of `hint_open` calls in a sequence. -/
def opens (ops : List HintOp) : Nat := ops.countP (· = .opn)

/-- Number of `hint_closed` calls in a sequence. -/
def closes (ops : List HintOp) : Nat := ops.countP (· = .cls)

/-! ## C6 and C7: tree-editing utilities (pasta/base/ast_utils.py)

AST nodes are referenced by identity; we give every node a numeric
identity and represent a parent node by its ordered field list
(`parent._fields`).  A field value is a child node, a list of child
nodes, or a primitive value. -/

/-- The value of one AST field, as inspected by `ast.iter_fields` /
`getattr(parent, field)`. -/
inductive FieldVal where
| node (id : Nat)
| nodeList (ids : List Nat)
| prim (v : PyVal)
deriving DecidableEq, Repr

/-- Replace the first occurrence of `old` in a list by `new`
(the effect of `field_val[field_val.index(node)] = replace_with`). -/
def replaceFirst (l : List Nat) (old new : Nat) : List Nat :=
  match l with
  | [] => []
  | x :: xs => if x = old then new :: xs else x :: replaceFirst xs old new

/-- `ast_utils.remove_child(parent, child)` (pasta/base/ast_utils.py
lines 205-211): scan `ast.iter_fields(parent)` in order, remove `child`
from the first list field containing it, else raise
`errors.InvalidAstError`.  `errors.py` is missing from the source tree;
its `InvalidAstError` exception class is modelled from the spec as a
structured error constructor. -/
def remove_child (fields : List (String × FieldVal)) (child : Nat) :
    Except PyErr (List (String × FieldVal)) :=
  match fields with
  | [] => .error (.invalidAst "Unable to find list containing child on parent node")
  | (f, v) :: rest =>
    match v with
    | .nodeList ids =>
      if child ∈ ids then
        .ok ((f, .nodeList (ids.erase child)) :: rest)
      else do
        let rest' ← remove_child rest child
        .ok ((f, v) :: rest')
    | other => do
      let rest' ← remove_child rest child
      .ok ((f, other) :: rest')

/-- A formatting record: the per-node mapping from attribute name to
captured value.  Modelled from the spec: the formatting store module
(pasta/base/formatting.py) is missing from the source tree; per §3 of
the spec a Formatting Record is "attached to exactly one Syntax Node; a
mapping from attribute name (string) to captured text (string), plus a
shadow copy of any structural field the captured text depends on", and
per codegen.py's `to_tree_str` it is stored as the node's `__pasta__`
dict attribute (the old annotator uses the `a` dict attribute for the
same record). -/
abbrev FmtRec := List (String × PyVal)

/-- Look a key up in a formatting record (`fmt.get(node, name)` /
dict `.get`, returning None when absent). -/
def fmtGet (rec : FmtRec) (name : String) : Option PyVal :=
  (rec.find? (fun p => p.1 = name)).map Prod.snd

/-- Set a key in a formatting record (`fmt.set` / `setprop`). -/
def fmtSet (rec : FmtRec) (name : String) (v : PyVal) : FmtRec :=
  if (rec.find? (fun p => p.1 = name)).isSome then
    rec.map (fun p => if p.1 = name then (p.1, v) else p)
  else rec ++ [(name, v)]

/-- `ast_utils.prop(node, name)` on a node that has a record: the
record is a `collections.defaultdict(lambda: '')`, so a missing key
reads as the empty string. -/
def propGet (rec : FmtRec) (name : String) : PyVal :=
  (fmtGet rec name).getD (.str "")

/-- `ast_utils.replace_child(parent, node, replace_with)`
(pasta/base/ast_utils.py lines 214-237), translated exactly: it first
copies the old node's prefix and suffix formatting onto the new node
when the old node carries a record (`hasattr(node, 'a')`), then scans
`parent._fields`; a direct field equal to `node` is reassigned; for a
list field it runs `field_val[field_val.index(node)] = replace_with`
inside `try: ... except IndexError: pass`, so when the list does not
contain `node` the ValueError raised by `list.index` propagates; if the
scan falls through, the final `raise` evaluates the undefined name
`child` and so raises NameError.  Returns the updated fields and the
updated record of `replace_with`. -/
def replace_child (fields : List (String × FieldVal)) (node new : Nat)
    (nodeHasRec : Bool) (nodeRec : FmtRec) (newRec : FmtRec) :
    Except PyErr (List (String × FieldVal) × FmtRec) :=
  let newRec' :=
    if nodeHasRec then
      fmtSet (fmtSet newRec "prefix" (propGet nodeRec "prefix"))
        "suffix" (propGet nodeRec "suffix")
    else newRec
  (replaceChildScan fields node new).map (fun fs => (fs, newRec'))
where
  /-- The field scan loop of `replace_child`. -/
  replaceChildScan : List (String × FieldVal) → Nat → Nat →
      Except PyErr (List (String × FieldVal))
  | [], _, _ => .error (.nameErr "child")
  | (f, v) :: rest, node, new =>
    match v with
    | .node i =>
      if i = node then .ok ((f, .node new) :: rest)
      else do
        let rest' ← replaceChildScan rest node new
        .ok ((f, .node i) :: rest')
    | .nodeList ids =>
      if node ∈ ids then .ok ((f, .nodeList (replaceFirst ids node new)) :: rest)
      else .error (.valueErr "x not in list")
    | .prim w => do
      let rest' ← replaceChildScan rest node new
      .ok ((f, .prim w) :: rest')

/-! ## The token generator embedded in pasta/base/annotate.py (lines 967-1164)

This is the `TokenGenerator` class defined inside annotate.py, used by
`AstAnnotator`.  Its mutable state becomes the structure `StA`; methods
become functions threading `StA`. -/

/-- Python string slicing `s[a:b]` (never raises; clamps). -/
def strSlice (s : String) (a b : Nat) : String :=
  ⟨(s.toList.take b).drop a⟩

/-- Python string slicing `s[a:]`. -/
def strFrom (s : String) (a : Nat) : String :=
  ⟨s.toList.drop a⟩

/-- Python list slicing `l[a:b]`. -/
def listSlice {α : Type} (l : List α) (a b : Nat) : List α :=
  (l.take b).drop a

/-- Python `source.splitlines(True)`: split at newline characters,
keeping them. -/
def splitLinesKeep (s : String) : List String :=
  go s.toList []
where
  go : List Char → List Char → List String
  | [], [] => []
  | [], acc => [⟨acc.reverse⟩]
  | c :: cs, acc =>
    if c = '\n' then ⟨(c :: acc).reverse⟩ :: go cs []
    else go cs (c :: acc)

/-- `ast_utils.space_between(from_loc, to_loc, line, lines)`
(pasta/base/ast_utils.py lines 91-112): all source characters between
two locations.  The `for ... else: line = to_loc` of the source
rebinds a local that is never read again and has no embedded effect. -/
def space_between (fromLoc toLoc : Loc) (line : String) (lines : List String) :
    Except PyErr String :=
  if fromLoc.1 = toLoc.1 then .ok (strSlice line fromLoc.2 toLoc.2)
  else do
    let firstLine ← pyListGet lines ((fromLoc.1 : Int) - 1)
    let mid := listSlice lines fromLoc.1 (toLoc.1 - 1)
    let base := (strFrom firstLine fromLoc.2) ++ String.join mid
    if toLoc.2 ≠ 0 then do
      let lastLine ← pyListGet lines ((toLoc.1 : Int) - 1)
      .ok (base ++ strSlice lastLine 0 toLoc.2)
    else .ok base

/-- The state of the annotate.py `TokenGenerator`: token list, paren
stack, bracket hints, scope stack (entries are closures of node
identities), source lines, index `_i` of the last consumed token
(initially -1) and the parsed-to location `_loc`. -/
structure StA where
  tokens : List Tok
  parens : List String
  hints : Int
  scope_stack : List (List Nat)
  lines : List String
  i : Int
  loc : Loc
deriving DecidableEq, Repr

/-- Initial `TokenGenerator.__init__` state for a source text. -/
def initStA (toks : List Tok) (src : String) : StA :=
  { tokens := toks, parens := [], hints := 0, scope_stack := [],
    lines := splitLinesKeep src, i := -1, loc := (1, 0) }

/-- `TokenGenerator.peek` (annotate.py lines 991-994): None once `_i`
reaches the token count, else `_tokens[_i + 1]` (an index error when
`_i + 1` is exactly the length, as in the source). -/
def peekA (st : StA) : Except PyErr (Option Tok) :=
  if (st.tokens.length : Int) ≤ st.i then .ok none
  else (pyListGet st.tokens (st.i + 1)).map some

/-- `TokenGenerator.next(advance)` (annotate.py lines 996-1002):
increment `_i`; None past the end; else return the token, setting
`_loc` to its end when `advance`. -/
def nextA (advance : Bool) (st : StA) : Except PyErr (Option Tok × StA) :=
  let i' := st.i + 1
  if (st.tokens.length : Int) ≤ i' then .ok (none, { st with i := i' })
  else do
    let t ← pyListGet st.tokens i'
    .ok (some t, { st with i := i', loc := if advance then t.stop else st.loc })

/-- `TokenGenerator.rewind(amount)` (annotate.py lines 1004-1005). -/
def rewindA (amount : Int) (st : StA) : StA :=
  { st with i := st.i - amount }

/-- The loop of `TokenGenerator.takewhile(condition, advance)`
(annotate.py lines 1158-1164), with `next` inlined: consume tokens
while the condition holds on the next token, then rewind one step.
All call sites in annotate.py consume the generator fully, which is
the behaviour embedded here.  The structural `fuel` argument only
bounds the number of loop steps; the wrapper below always supplies
enough for the loop to finish through its own exit conditions, so the
fuel-exhausted base case is unreachable. -/
def an_takewhileGo (cond : Tok → Bool) (advance : Bool) :
    Nat → StA → Except PyErr (List Tok × StA)
| 0, st => .ok ([], st)
| fuel + 1, st =>
  let i' := st.i + 1
  if (st.tokens.length : Int) ≤ i' then
    .ok ([], { st with i := i' - 1 })
  else do
    let t ← pyListGet st.tokens i'
    let st1 := { st with i := i', loc := if advance then t.stop else st.loc }
    if cond t then do
      let (l, st2) ← an_takewhileGo cond advance fuel st1
      .ok (t :: l, st2)
    else
      .ok ([], { st1 with i := st1.i - 1 })

/-- `TokenGenerator.takewhile(condition, advance)` (annotate.py lines
1158-1164): run the loop with enough fuel for it to terminate by its
own exit conditions. -/
def an_takewhile (cond : Tok → Bool) (advance : Bool) (st : StA) :
    Except PyErr (List Tok × StA) :=
  an_takewhileGo cond advance ((st.tokens.length + 1 : Int) - st.i).toNat st

/-- `TokenGenerator._space_between(prev_loc, tok)` (annotate.py lines
1138-1145). -/
def an_space_between (lines : List String) (prevLoc : Loc) (tok : Tok) :
    Except PyErr String :=
  if locGT prevLoc tok.start then .error (.valueErr "prev_loc > token start")
  else if prevLoc.1 > lines.length then .ok ""
  else do
    let line ← pyListGet lines ((prevLoc.1 : Int) - 1)
    space_between prevLoc tok.start line lines

/-- The `for tok in itertools.chain(whitespace, (next_token,))` loop of
`TokenGenerator.whitespace` (annotate.py lines 1022-1029): accumulate
inter-token text; a None `next_token` is subscripted by
`_space_between` and raises TypeError. -/
def an_wsLoop (lines : List String) (nt : Option Tok) :
    List Tok → String → Loc → Except PyErr (String × Loc)
| [], acc, loc =>
  match nt with
  | none => .error (.typeErr "NoneType object is not subscriptable")
  | some t => do
    let sp ← an_space_between lines loc t
    .ok (acc ++ sp, t.start)
| tok :: rest, acc, loc => do
  let sp ← an_space_between lines loc tok
  if some tok ≠ nt then
    an_wsLoop lines nt rest (acc ++ sp ++ tok.src) tok.stop
  else
    an_wsLoop lines nt rest (acc ++ sp) tok.start

/-- The predicate of `TokenGenerator.whitespace` (annotate.py lines
1016-1018). -/
def an_wsPred (oneline : Bool) (t : Tok) : Bool :=
  t.type = .COMMENT || t.type = .INDENT || t.type = .DEDENT ||
    (!oneline && (t.type = .NL || t.type = .NEWLINE))

/-- `TokenGenerator.whitespace(oneline)` (annotate.py lines 1007-1035):
consume formatting tokens, rebuild the exact text up to the next
significant token, and always eat a single trailing newline token. -/
def an_whitespace (oneline : Bool) (st : StA) : Except PyErr (String × StA) := do
  let (wstoks, st1) ← an_takewhile (an_wsPred oneline) false st
  let nt? ← peekA st1
  let (result, loc') ← an_wsLoop st1.lines nt? wstoks "" st1.loc
  let st2 := { st1 with loc := loc' }
  match nt? with
  | some nt =>
    if nt.type = .NL || nt.type = .NEWLINE then do
      let (t?, st3) ← nextA true st2
      match t? with
      | some t => .ok (result ++ t.src, st3)
      | none => .error (.typeErr "NoneType object is not subscriptable")
    else .ok (result, st2)
  | none => .error (.typeErr "NoneType object is not subscriptable")

/-! ## C5: `AstAnnotator.token` (pasta/base/annotate.py lines 914-925) -/

/-- `AstAnnotator.token(token_val)`: consume the next token; if its
text differs from `token_val` raise
`ValueError("Expected %r but found %r\nline %d: %s" % (token_val,
token[1], token[2][0], self.tokens._lines[token[2][0] - 1]))`, whose
format arguments are embedded as the structured `unexpectedTok` error;
on a match, update the bracket hints (`token[1] in '({['` and
`token[1] in ')}]'` are Python substring tests) and return the text. -/
def annot_token (token_val : String) (st : StA) : Except PyErr (String × StA) := do
  let (t?, st1) ← nextA true st
  match t? with
  | none => .error (.typeErr "NoneType object is not subscriptable")
  | some t =>
    if t.src ≠ token_val then do
      let line ← pyListGet st1.lines ((t.start.1 : Int) - 1)
      .error (.unexpectedTok token_val t.src t.start.1 line)
    else
      if strIn t.src "(\x7b[" then
        .ok (t.src, { st1 with hints := hint_open st1.hints })
      else if strIn t.src ")\x7d]" then do
        let h ← hint_closed st1.hints
        .ok (t.src, { st1 with hints := h })
      else .ok (t.src, st1)

/-! ## The formatting store as a side table

Formatting records live on the nodes (`node.a` in annotate.py and
ast_utils.py, `node.__pasta__` for the missing formatting module); the
embedding keeps them in a side table keyed by node identity, as §9 of
the spec prescribes for the reimplementation. -/

/-- The per-tree store: node identity to formatting record. -/
abbrev Store := List (Nat × FmtRec)

/-- The record of a node, if the node has one (`hasattr(node, 'a')`). -/
def storeRec (s : Store) (id : Nat) : Option FmtRec :=
  (s.find? (fun p => p.1 = id)).map Prod.snd

/-- `ast_utils.setup_props(node)`: give the node an empty record
unless it already has one. -/
def setup_props (s : Store) (id : Nat) : Store :=
  if (storeRec s id).isSome then s else s ++ [(id, [])]

/-- Rewrite the record of one node in the store. -/
def storeModify (s : Store) (id : Nat) (f : FmtRec → FmtRec) : Store :=
  s.map (fun p => if p.1 = id then (p.1, f p.2) else p)

/-- `ast_utils.setprop(node, name, value)`: ensure the record exists,
then assign. -/
def setprop (s : Store) (id : Nat) (name : String) (v : PyVal) : Store :=
  storeModify (setup_props s id) id (fun r => fmtSet r name v)

/-- `ast_utils.appendprop(node, name, value)`: `node.a[name] += value`.
AttributeError when the node has no record; the defaultdict reads a
missing key as the empty string; concatenating onto a non-string
stored value raises TypeError. -/
def appendprop (s : Store) (id : Nat) (name : String) (v : String) :
    Except PyErr Store :=
  match storeRec s id with
  | none => .error (.attributeErr "a")
  | some r =>
    match propGet r name with
    | .str cur => .ok (storeModify s id (fun rr => fmtSet rr name (.str (cur ++ v))))
    | _ => .error (.typeErr "can only concatenate str to str")

/-! ## The syntax-tree fragment of the round-trip pipeline

The node kinds reached by the pipeline theorems: Module, Pass,
ImportFrom and alias.  Nodes carry a numeric identity for the store. -/

/-- A syntax-tree node of the embedded fragment. -/
inductive PAst where
| module (id : Nat) (body : List PAst)
| passStmt (id : Nat)
| importFrom (id : Nat) (moduleName : String) (level : Nat) (names : List PAst)
| aliasNode (id : Nat) (name : String) (asname : Option String)
deriving Repr

/-- The identity of a node. -/
def PAst.nid : PAst → Nat
| .module i _ => i
| .passStmt i => i
| .importFrom i _ _ _ => i
| .aliasNode i _ _ => i

/-- `getattr(node, name, None)` restricted to the structural fields the
embedded code reads. -/
def getattrP (node : PAst) (name : String) : Option PyVal :=
  match node with
  | .importFrom _ m lvl _ =>
    if name = "module" then some (.str m)
    else if name = "level" then some (.int lvl) else none
  | .aliasNode _ n a =>
    if name = "name" then some (.str n)
    else if name = "asname" then
      some (match a with | some s => .str s | none => .none)
    else none
  | _ => none

/-- `hasattr(node, name)` for the same fields. -/
def hasattrP (node : PAst) (name : String) : Bool :=
  (getattrP node name).isSome

/-! ## The annotator (pasta/base/annotate.py, classes BaseVisitor and
AstAnnotator)

`pasta.parse` builds an annotator via `annotate.get_ast_annotator`;
that accessor is missing from the source tree, so per the spec (§2,
§6) it is taken to return the `AstAnnotator` class that annotate.py
defines. -/

/-- One entry of an `attr_vals` list: a literal token text or the
whitespace callable `self.ws` (`oneline` selects the bound
`lambda: self.ws(oneline=...)` used by `suffix`). -/
inductive AVal where
| lit (s : String)
| wsF (oneline : Bool)
deriving DecidableEq, Repr

/-- The `for attr_val in attr_vals` loop of `AstAnnotator.attr`
(annotate.py lines 937-943): a `' '` literal is replaced by `self.ws`;
strings are consumed with `self.token`; callables are invoked; each
yield is appended to the node attribute. -/
def annot_attrVals (nid : Nat) (attrName : String) :
    List AVal → StA → Store → Except PyErr (StA × Store)
| [], st, sto => .ok (st, sto)
| v :: rest, st, sto => do
  match (if v = .lit " " then AVal.wsF false else v) with
  | .lit s => do
    let (tv, st') ← annot_token s st
    let sto' ← appendprop sto nid attrName tv
    annot_attrVals nid attrName rest st' sto'
  | .wsF o => do
    let (w, st') ← an_whitespace o st
    let sto' ← appendprop sto nid attrName w
    annot_attrVals nid attrName rest st' sto'

/-- `AstAnnotator.attr(node, attr_name, attr_vals, deps, default)`
(annotate.py lines 933-943): store a shadow copy `dep + '__src'` of
every dependency field, then consume the attribute values.  The
`default` argument is unused by the source body and omitted here. -/
def annot_attr (node : PAst) (attrName : String) (vals : List AVal)
    (deps : List String) (st : StA) (sto : Store) :
    Except PyErr (StA × Store) :=
  let sto1 := deps.foldl
    (fun s dep => setprop s node.nid (dep ++ "__src") ((getattrP node dep).getD .none))
    sto
  annot_attrVals node.nid attrName vals st sto1

/-- `BaseVisitor.prefix(node)` (annotate.py lines 73-74). -/
def annot_prefix (node : PAst) (st : StA) (sto : Store) :
    Except PyErr (StA × Store) :=
  annot_attr node "prefix" [.wsF false] [] st sto

/-- `BaseVisitor.suffix(node, oneline)` (annotate.py lines 70-71). -/
def annot_suffix (node : PAst) (oneline : Bool) (st : StA) (sto : Store) :
    Except PyErr (StA × Store) :=
  annot_attr node "suffix" [.wsF oneline] [] st sto

/-- Python `s.split('.')` on a string (as used on module paths and
dotted names): split at every dot. -/
def pySplitDot (s : String) : List String :=
  go s.toList []
where
  go : List Char → List Char → List String
  | [], acc => [⟨acc.reverse⟩]
  | c :: cs, acc =>
    if c = '.' then ⟨acc.reverse⟩ :: go cs [] else go cs (c :: acc)

/-- The `module_pattern` built by `BaseVisitor.visit_ImportFrom`
(annotate.py lines 193-198). -/
def modulePattern (moduleName : String) (level : Nat) : List AVal :=
  let base := (List.replicate level [AVal.lit ".", AVal.wsF false]).flatten
  if moduleName ≠ "" then
    let parts := pySplitDot moduleName
    base ++ (parts.dropLast.map (fun p => [AVal.wsF false, AVal.lit p, AVal.lit "."])).flatten
      ++ [AVal.wsF false, AVal.lit ((parts.getLast?).getD "")]
  else base

mutual

/-- `AstAnnotator.visit(node)` and the per-kind visit methods of
BaseVisitor for the embedded fragment: `visit` runs
`ast_utils.setup_props` and dispatches; `visit_Module` and
`visit_Pass`, `visit_ImportFrom`, `visit_alias` are wrapped by the
`spaced` decorator (prefix, body, suffix with oneline=True).  The
structural `fuel` argument only bounds the visit nesting so the
mutual recursion is kernel-reducible; `pasta_parse` supplies more
fuel than any tree needs, so the exhausted case is unreachable. -/
def annotVisit : Nat → PAst → StA → Store → Except PyErr (StA × Store)
| 0, _, _, _ => .error (.valueErr "recursion limit")
| fuel + 1, n@(.module _ body), st, sto => do
  let sto := setup_props sto n.nid
  let (st, sto) ← annot_prefix n st sto
  let (st, sto) ← annotVisitList fuel body st sto
  let (st, sto) ← annot_attr n "suffix" [.wsF false] [] st sto
  annot_suffix n true st sto
| _ + 1, n@(.passStmt _), st, sto => do
  let sto := setup_props sto n.nid
  let (st, sto) ← annot_prefix n st sto
  let (_, st) ← annot_token "pass" st
  annot_suffix n true st sto
| fuel + 1, n@(.importFrom _ m lvl names), st, sto => do
  let sto := setup_props sto n.nid
  let (st, sto) ← annot_prefix n st sto
  let (_, st) ← annot_token "from" st
  let (st, sto) ← annot_attr n "module_prefix" [.wsF false] [] st sto
  let (st, sto) ← annot_attr n "module" (modulePattern m lvl) ["level", "module"] st sto
  let (st, sto) ← annot_attr n "module_suffix" [.wsF false] [] st sto
  let (_, st) ← annot_token "import" st
  let (st, sto) ← annotAliases fuel ((names.getLast?).map PAst.nid) names st sto
  annot_suffix n true st sto
| _ + 1, n@(.aliasNode _ nm asn), st, sto => do
  let sto := setup_props sto n.nid
  let (st, sto) ← annot_prefix n st sto
  let (_, st) ← annot_token nm st
  let (st, sto) ← (match asn with
    | some a => do
      let (st, sto) ← annot_attr n "asname" [.wsF false, .lit "as", .wsF false] [] st sto
      let (_, st) ← annot_token a st
      pure (st, sto)
    | none => pure (st, sto))
  annot_suffix n true st sto

/-- `ast.NodeVisitor.generic_visit`: visit the child statements in
order. -/
def annotVisitList : Nat → List PAst → StA → Store → Except PyErr (StA × Store)
| _, [], st, sto => .ok (st, sto)
| 0, _ :: _, _, _ => .error (.valueErr "recursion limit")
| fuel + 1, x :: xs, st, sto => do
  let (st, sto) ← annotVisit fuel x st sto
  annotVisitList fuel xs st sto

/-- The alias loop of `visit_ImportFrom` (annotate.py lines 206-209):
visit each alias and consume a comma after every alias but the last
(`alias != node.names[-1]` compares node identity). -/
def annotAliases : Nat → Option Nat → List PAst → StA → Store →
    Except PyErr (StA × Store)
| _, _, [], st, sto => .ok (st, sto)
| 0, _, _ :: _, _, _ => .error (.valueErr "recursion limit")
| fuel + 1, lastId, x :: xs, st, sto => do
  let (st, sto) ← annotVisit fuel x st sto
  if some x.nid ≠ lastId then do
    let (_, st) ← annot_token "," st
    annotAliases fuel lastId xs st sto
  else
    annotAliases fuel lastId xs st sto

end

/-! ## The code generator (pasta/base/codegen.py)

`to_str` builds a `Printer` on `annotate.get_base_visitor(py_ver)`;
that accessor is missing from the source tree, so per the spec it is
taken to return the `BaseVisitor` class of annotate.py, whose visit
methods the Printer inherits.  The formatting reads `fmt.get` go to
the node record modelled above. -/

/-- The value-selection logic of `Printer.attr` (codegen.py lines
165-172): take the stored value; fall back to the default when no
value was stored, or when some dependency has a `dep + '__src'`
attribute on the node whose current field value differs from the
stored shadow (`deps and any(hasattr(node, dep + '__src') and
(getattr(node, dep, None) != fmt.get(node, dep + '__src')) for dep in
deps)`). -/
def printer_attr_val (node : PAst) (rec : FmtRec) (attrName : String)
    (deps : Option (List String)) (dflt : Option PyVal) : Option PyVal :=
  let val := fmtGet rec attrName
  if val = none ∨ (deps.getD []).any (fun dep =>
      hasattrP node (dep ++ "__src") &&
        ((getattrP node dep).getD .none ≠ (fmtGet rec (dep ++ "__src")).getD .none))
  then dflt else val

/-- `Printer.attr` (codegen.py lines 144-176): skip when this
attribute was already printed for the node (`_printer_info`); select
the value; then the guard `if separate_before and self.code and ...`
evaluates the name `separate_before`, which is absent from the
function signature (though still documented in its docstring), so
Python raises NameError before anything is emitted. -/
def printer_attr (node : PAst) (rec : FmtRec) (attrName : String)
    (deps : Option (List String)) (dflt : Option PyVal)
    (info : List String) (code : String) : Except PyErr (String × List String) :=
  if attrName ∈ info then .ok (code, info)
  else
    let _info' := attrName :: info
    let _val := (printer_attr_val node rec attrName deps dflt).getD (.str "")
    .error (.nameErr "separate_before")

/-- `Printer.token(token_val, separate_before)` (codegen.py lines
122-134). -/
def printer_token (code : String) (tokenVal : String) (sepBefore : Bool) : String :=
  if sepBefore && code ≠ "" && (code.toList.getLast?.getD ' ').isAlphanum &&
      (tokenVal = "" || (tokenVal.toList.headD ' ').isAlphanum) then
    code ++ " " ++ tokenVal
  else code ++ tokenVal

/-- The `except (TypeError, ValueError, IndexError, KeyError)` clause
of `Printer.visit` (codegen.py lines 57-63): those exceptions are
wrapped into PrintError; anything else (in particular NameError)
propagates unchanged. -/
def pyErrPrintWrap : PyErr → PyErr
| .typeErr m => .printError m
| .valueErr m => .printError m
| .unexpectedTok e f _ _ => .printError ("Expected " ++ e ++ " but found " ++ f)
| .indexErr => .printError "IndexError"
| .keyErr => .printError "KeyError"
| e => e

mutual

/-- `Printer.visit(node)` (codegen.py lines 57-63): set up the
per-node `_printer_info`, dispatch, and wrap the caught exception
classes into PrintError.  Fuel as for `annotVisit`. -/
def printVisit : Nat → PAst → Store → String → Except PyErr String
| 0, _, _, _ => .error (.valueErr "recursion limit")
| fuel + 1, node, sto, code =>
  match printDispatch fuel node sto code with
  | .ok c => .ok c
  | .error e => .error (pyErrPrintWrap e)

/-- The per-kind emission methods run by the Printer: `visit_Module`
is the Printer override (codegen.py lines 65-71); Pass, ImportFrom and
alias use the BaseVisitor methods with the `spaced` wrapper, driven by
`Printer.attr` and `Printer.token`. -/
def printDispatch : Nat → PAst → Store → String → Except PyErr String
| _, n@(.passStmt _), sto, code => do
  let frec := (storeRec sto n.nid).getD []
  let (code, info) ← printer_attr n frec "prefix" none none [] code
  let code := printer_token code "pass" false
  let (code, _) ← printer_attr n frec "suffix" none none info code
  .ok code
| _, n@(.aliasNode _ nm asn), sto, code => do
  let frec := (storeRec sto n.nid).getD []
  let (code, info) ← printer_attr n frec "prefix" none none [] code
  let code := printer_token code nm false
  let (code, info) ← (match asn with
    | some a => do
      let (code, info) ← printer_attr n frec "asname" none (some (.str " as ")) info code
      pure (printer_token code a false, info)
    | none => pure (code, info))
  let (code, _) ← printer_attr n frec "suffix" none none info code
  .ok code
| fuel + 1, n@(.module _ body), sto, code => do
  let frec := (storeRec sto n.nid).getD []
  let (code, _) ← printer_attr n frec "prefix" none none [] code
  let code := match fmtGet frec "bom" with
    | some (.str b) => code ++ b
    | _ => code
  let code ← printVisitList fuel body sto code
  let (code, _) ← printer_attr n frec "suffix" none none [] code
  .ok code
| fuel + 1, n@(.importFrom _ m lvl names), sto, code => do
  let frec := (storeRec sto n.nid).getD []
  let (code, info) ← printer_attr n frec "prefix" none none [] code
  let code := printer_token code "from" false
  let (code, info) ← printer_attr n frec "module_prefix" none (some (.str " ")) info code
  let dfltModule := String.join (List.replicate lvl ".") ++ m
  let (code, info) ← printer_attr n frec "module"
    (some ["level", "module"]) (some (.str dfltModule)) info code
  let (code, info) ← printer_attr n frec "module_suffix" none (some (.str " ")) info code
  let code := printer_token code "import" false
  let code ← printAliases fuel ((names.getLast?).map PAst.nid) names sto code
  let (code, _) ← printer_attr n frec "suffix" none none info code
  .ok code
| 0, _, _, _ => .error (.valueErr "recursion limit")

/-- Child emission for `generic_visit`. -/
def printVisitList : Nat → List PAst → Store → String → Except PyErr String
| _, [], _, code => .ok code
| 0, _ :: _, _, _ => .error (.valueErr "recursion limit")
| fuel + 1, x :: xs, sto, code => do
  let code ← printVisit fuel x sto code
  printVisitList fuel xs sto code

/-- The alias loop of `visit_ImportFrom` in emission mode. -/
def printAliases : Nat → Option Nat → List PAst → Store → String →
    Except PyErr String
| _, _, [], _, code => .ok code
| 0, _, _ :: _, _, _ => .error (.valueErr "recursion limit")
| fuel + 1, lastId, x :: xs, sto, code => do
  let code ← printVisit fuel x sto code
  if some x.nid ≠ lastId then
    printAliases fuel lastId xs sto (printer_token code "," false)
  else
    printAliases fuel lastId xs sto code

end

mutual

/-- All nodes of a tree, for the indentation scan of `to_str`
(`pasta.ast_walk`; traversal order does not matter to the scan).
Fuel as for `annotVisit`. -/
def pastaWalk : Nat → PAst → List PAst
| 0, _ => []
| fuel + 1, n@(.module _ body) => n :: pastaWalkList fuel body
| fuel + 1, n@(.importFrom _ _ _ names) => n :: pastaWalkList fuel names
| _ + 1, n => [n]

/-- Walk a list of sibling nodes. -/
def pastaWalkList : Nat → List PAst → List PAst
| _, [] => []
| 0, _ :: _ => []
| fuel + 1, x :: xs => pastaWalk fuel x ++ pastaWalkList fuel xs

end

/-- Visit-nesting fuel that vastly exceeds the depth of every tree
used in this development; the fuelled recursions never reach their
exhausted cases with it. -/
def visitFuel : Nat := 1000

/-- `codegen.to_str(tree)` (codegen.py lines 39-209): scan the tree
for observed `indent_diff` values to pick a default indentation, then
run the Printer from empty output. -/
def to_str (tree : PAst) (sto : Store) : Except PyErr String :=
  let diffs := (pastaWalk visitFuel tree).foldl
    (fun acc n =>
      match fmtGet ((storeRec sto n.nid).getD []) "indent_diff" with
      | some (.str d) => if d ≠ "" then acc ++ [d] else acc
      | _ => acc) []
  let _defaultIndent := (diffs.getLast?).getD ""
  printVisit visitFuel tree sto ""

/-! ## `pasta.parse` and `pasta.dump` (pasta/__init__.py lines 49-58)

The external grammar parser (`ast_utils.parse`, running the stdlib
`ast.parse`) and the stdlib tokenizer are outside this code base (spec
§1, §6); they are modelled from the spec for the concrete source texts
the theorems use, by giving the tree and the token stream those tools
produce. -/

/-- The source text of the Pass counterexample. -/
def passSrc : String := "pass\n"

/-- Modelled from the spec: the external parser result for
`passSrc`. -/
def passTree : PAst := .module 0 [.passStmt 1]

/-- Modelled from the spec: the tokenize output for `passSrc`. -/
def passToks : List Tok :=
  [⟨.NAME, "pass", (1, 0), (1, 4), "pass\n"⟩,
   ⟨.NEWLINE, "\n", (1, 4), (1, 5), "pass\n"⟩,
   ⟨.ENDMARKER, "", (2, 0), (2, 0), ""⟩]

/-- The source text of the import counterexample. -/
def impSrc : String := "from a import b\n"

/-- Modelled from the spec: the external parser result for
`impSrc`. -/
def impTree : PAst := .module 0 [.importFrom 1 "a" 0 [.aliasNode 2 "b" none]]

/-- Modelled from the spec: the tokenize output for `impSrc`. -/
def impToks : List Tok :=
  [⟨.NAME, "from", (1, 0), (1, 4), impSrc⟩,
   ⟨.NAME, "a", (1, 5), (1, 6), impSrc⟩,
   ⟨.NAME, "import", (1, 7), (1, 13), impSrc⟩,
   ⟨.NAME, "b", (1, 14), (1, 15), impSrc⟩,
   ⟨.NEWLINE, "\n", (1, 15), (1, 16), impSrc⟩,
   ⟨.ENDMARKER, "", (2, 0), (2, 0), ""⟩]

/-- Modelled from the spec: the external grammar parser and tokenizer,
defined on the concrete sources used by the theorems. -/
def ast_parse_model (src : String) : Except PyErr (PAst × List Tok) :=
  if src = passSrc then .ok (passTree, passToks)
  else if src = impSrc then .ok (impTree, impToks)
  else .error (.valueErr "source not in the modelled parser domain")

/-- `pasta.parse(src)`: run the external parser, then the annotator
over the token stream; returns the tree with its store of formatting
records. -/
def pasta_parse (src : String) : Except PyErr (PAst × Store) := do
  let (t, toks) ← ast_parse_model src
  let (_, sto) ← annotVisit visitFuel t (initStA toks src) []
  .ok (t, sto)

/-- `pasta.dump(tree)` = `codegen.to_str(tree)`. -/
def pasta_dump (t : PAst) (sto : Store) : Except PyErr String :=
  to_str t sto

/-- The round-trip composition `dump(parse(S))`. -/
def dumpParse (src : String) : Except PyErr String := do
  let (t, sto) ← pasta_parse src
  pasta_dump t sto

/-- The double round trip `dump(parse(dump(parse(S))))`. -/
def dumpParseTwice (src : String) : Except PyErr String := do
  let out ← dumpParse src
  dumpParse out

/-! ## The standalone token generator (pasta/base/token_generator.py)

The `TokenGenerator` class of token_generator.py, used by the newer
annotator.  Its state has the same shape as the annotate.py one and
reuses `StA`; the methods differ (peek guard, loc-restoring
takewhile) and are embedded separately. -/

/-- `TokenGenerator.next(advance)` (token_generator.py lines
93-100). -/
def tg_next (advance : Bool) (st : StA) : Except PyErr (Option Tok × StA) :=
  let i' := st.i + 1
  if (st.tokens.length : Int) ≤ i' then .ok (none, { st with i := i' })
  else do
    let t ← pyListGet st.tokens i'
    .ok (some t, { st with i := i', loc := if advance then t.stop else st.loc })

/-- `TokenGenerator.peek()` (token_generator.py lines 79-83): None
when `_i + 1` reaches the token count. -/
def tg_peek (st : StA) : Except PyErr (Option Tok) :=
  if (st.tokens.length : Int) ≤ st.i + 1 then .ok none
  else (pyListGet st.tokens (st.i + 1)).map some

/-- The loop of `TokenGenerator.takewhile(condition, advance)`
(token_generator.py lines 350-359), with `next` inlined: it tracks
`prev_loc`, the location after the last accepted token, and on exit
rewinds one token and restores `_loc` to `prev_loc`.  The structural
`fuel` only bounds the loop steps; the wrapper supplies enough for the
loop to finish through its own exit conditions. -/
def tg_takewhileGo (cond : Tok → Bool) (advance : Bool) :
    Nat → StA → Except PyErr (List Tok × StA)
| 0, st => .ok ([], st)
| fuel + 1, st =>
  let prevLoc := st.loc
  let i' := st.i + 1
  if (st.tokens.length : Int) ≤ i' then
    .ok ([], { st with i := i' - 1, loc := prevLoc })
  else do
    let t ← pyListGet st.tokens i'
    let st1 := { st with i := i', loc := if advance then t.stop else st.loc }
    if cond t then do
      let (l, st2) ← tg_takewhileGo cond advance fuel st1
      .ok (t :: l, st2)
    else
      .ok ([], { st1 with i := st1.i - 1, loc := prevLoc })

/-- `TokenGenerator.takewhile(condition, advance)` (token_generator.py
lines 350-359). -/
def tg_takewhile (cond : Tok → Bool) (advance : Bool) (st : StA) :
    Except PyErr (List Tok × StA) :=
  tg_takewhileGo cond advance ((st.tokens.length + 1 : Int) - st.i).toNat st

/-- `TokenGenerator.next_name()` (token_generator.py lines 330-339):
consume non-NAME tokens without advancing the location, read the next
token, then restore the token index to its value before the call. -/
def next_name (st : StA) : Except PyErr (Option Tok × StA) := do
  let last_i := st.i
  let (_, st1) ← tg_takewhile (fun t => t.type ≠ TokType.NAME) false st
  let (result, st2) ← tg_next false st1
  .ok (result, { st2 with i := last_i })

/-! ## C4: the parenthesis-scope machinery of
pasta/base/token_generator.py (open_scope lines 175-214, close_scope
lines 216-264, the scope context manager lines 276-289 and
`_scope_helper` lines 362-402). -/

/-- `token.type in FORMATTING_TOKENS` (token_generator.py lines
37-38). -/
def isFormatting : TokType → Bool
| .INDENT => true
| .DEDENT => true
| .NL => true
| .NEWLINE => true
| .COMMENT => true
| _ => false

/-- `TokenGenerator._space_between(prev_loc, tok)` (token_generator.py
lines 311-328): the source characters between a location and the next
token's start. -/
def tg_space_between (st : StA) (prevLoc : Loc) (t : Tok) : Except PyErr String :=
  if locGT prevLoc t.start then .error (.valueErr "prev_loc > token start")
  else if st.lines.length < prevLoc.1 then .ok ""
  else if prevLoc.1 = t.start.1 then do
    let line ← pyListGet st.lines ((prevLoc.1 : Int) - 1)
    .ok (strSlice line prevLoc.2 t.start.2)
  else do
    let firstLine ← pyListGet st.lines ((prevLoc.1 : Int) - 1)
    let base := strFrom firstLine prevLoc.2 ++
      String.join (listSlice st.lines prevLoc.1 (t.start.1 - 1))
    if 0 < t.start.2 then do
      let lastLine ← pyListGet st.lines ((t.start.1 : Int) - 1)
      .ok (base ++ strSlice lastLine 0 t.start.2)
    else .ok base

/-- The expression-node fragment `_scope_helper` distinguishes: an
atom (Name, Num, ...) hits the final `return (node,)`; a BinOp
recurses into its left operand. -/
inductive ENode where
| atom (id : Nat)
| binOp (id : Nat) (left : ENode) (right : ENode)
deriving Repr

/-- The identity of an expression node. -/
def ENode.nid : ENode → Nat
| .atom i => i
| .binOp i _ _ => i

/-- `_scope_helper(node)` (token_generator.py lines 362-402) on the
embedded fragment: the closure of nodes that could begin a scope. -/
def scope_helper : ENode → List Nat
| .atom i => [i]
| .binOp i l _ => i :: scope_helper l

/-- The `for tok in self.takewhile(...)` loop of
`TokenGenerator.open_scope` (lines 181-199), with the generator
inlined: each step consumes one token with `advance=True`; on normal
exhaustion the generator rewinds one token and restores `_loc`; on
`break` the generator's cleanup never runs.  Carries the loop locals
`result`, `parens`, `start_i`, `start_loc` and `prev_loc`.  The
structural `fuel` only bounds the steps; the wrapper supplies enough
for the loop to finish through its own exit conditions. -/
def open_scopeLoop (single_paren : Bool) :
    Nat → String → List String → Int → Loc → Loc → StA →
    Except PyErr (String × List String × Int × Loc × StA)
| 0, _, _, _, _, _, _ => .error (.valueErr "recursion limit")
| fuel + 1, result, parens, start_i, start_loc, prev_loc, st =>
  let i' := st.i + 1
  if (st.tokens.length : Int) ≤ i' then
    .ok (result, parens, start_i, start_loc, { st with i := i' - 1, loc := st.loc })
  else do
    let t ← pyListGet st.tokens i'
    let st1 := { st with i := i', loc := t.stop }
    if isFormatting t.type || t.src = "(" then do
      let spc ← tg_space_between st prev_loc t
      let result1 := result ++ spc
      if t.src = "(" ∧ single_paren = true ∧ parens ≠ [] then
        .ok (result1, parens, start_i, start_loc, { st1 with i := st1.i - 1, loc := t.start })
      else
        if t.src = "(" then
          open_scopeLoop single_paren fuel "" (parens ++ [result1 ++ t.src])
            st1.i st1.loc st1.loc st1
        else
          open_scopeLoop single_paren fuel (result1 ++ t.src) parens
            start_i start_loc st1.loc st1
    else
      .ok (result, parens, start_i, start_loc, { st1 with i := st1.i - 1, loc := st.loc })

/-- `TokenGenerator.open_scope(node, single_paren)` (token_generator.py
lines 175-214): eat whitespace and open parens; when parens were
found, attribute trailing space to the last one and push each paren
text and the node closure onto the paren and scope stacks; otherwise
reset state as if nothing happened. -/
def open_scope (node : ENode) (single_paren : Bool) (st : StA) :
    Except PyErr StA := do
  let (result, parens, start_i, start_loc, st1) ←
    open_scopeLoop single_paren ((st.tokens.length + 1 : Int) - st.i).toNat
      "" [] st.i st.loc st.loc st
  if parens ≠ [] then do
    let nt ← tg_peek st1
    match nt with
    | Option.none => .error (.attributeErr "start")
    | some next_tok => do
      let spc ← tg_space_between st1 st1.loc next_tok
      let parens1 := parens.dropLast ++ [((parens.getLast?).getD "") ++ result ++ spc]
      .ok { st1 with
        loc := next_tok.start,
        parens := st1.parens ++ parens1,
        scope_stack := st1.scope_stack ++ parens1.map (fun _ => scope_helper node) }
  else
    .ok { st1 with i := start_i, loc := start_loc }

/-- Modelled from the spec: `fmt.get(node, name)` of the missing
formatting module reads the node's record in the side table, None when
absent. -/
def fmt_get (s : Store) (id : Nat) (name : String) : Option PyVal :=
  match storeRec s id with
  | Option.none => Option.none
  | some r => fmtGet r name

/-- Modelled from the spec: `fmt.prepend(node, name, value)` of the
missing formatting module: `node record[name] = value + record[name]`,
reading a missing key as the empty string like `fmt.append`. -/
def prependprop (s : Store) (id : Nat) (name : String) (v : String) :
    Except PyErr Store :=
  match storeRec s id with
  | Option.none => .error (.attributeErr "a")
  | some r =>
    match propGet r name with
    | .str cur => .ok (storeModify s id (fun rr => fmtSet rr name (.str (v ++ cur))))
    | _ => .error (.typeErr "can only concatenate str to str")

/-- The `for tok in self.takewhile(...)` loop of
`TokenGenerator.close_scope` (lines 236-262), with the generator
inlined as in `open_scopeLoop`.  Carries the loop locals `result`,
`parsed_to_i`, `parsed_to_loc`, `prev_loc` and `encountered_paren`,
and threads the formatting store through `fmt.prepend`/`fmt.append`;
popping an empty stack raises IndexError as `list.pop` does. -/
def close_scopeLoop (nid : Nat) (prefix_attr suffix_attr : String)
    (single_paren : Bool) (symbols : List String) :
    Nat → Store → String → Int → Loc → Loc → Bool → StA →
    Except PyErr (Store × Int × Loc × StA)
| 0, _, _, _, _, _, _, _ => .error (.valueErr "recursion limit")
| fuel + 1, store, result, parsed_to_i, parsed_to_loc, prev_loc, encountered, st =>
  let i' := st.i + 1
  if (st.tokens.length : Int) ≤ i' then
    .ok (store, parsed_to_i, parsed_to_loc, { st with i := i' - 1, loc := st.loc })
  else do
    let t ← pyListGet st.tokens i'
    let st1 := { st with i := i', loc := t.stop }
    if isFormatting t.type || symbols.contains t.src then do
      let spc ← tg_space_between st prev_loc t
      let result1 := result ++ spc
      if t.src = ")" ∧ single_paren = true ∧ encountered = true then do
        let store1 ← appendprop store nid suffix_attr result1
        .ok (store1, st1.i - 1, t.start, { st1 with i := st1.i - 1 })
      else
        if t.src = ")" then do
          let _ ← match st1.scope_stack.getLast? with
            | some l => pure l
            | Option.none => Except.error PyErr.indexErr
          let paren ← match st1.parens.getLast? with
            | some p => pure p
            | Option.none => Except.error PyErr.indexErr
          let st2 := { st1 with parens := st1.parens.dropLast, scope_stack := st1.scope_stack.dropLast }
          let store1 ← prependprop store nid prefix_attr paren
          let store2 ← appendprop store1 nid suffix_attr (result1 ++ t.src)
          if st2.parens = [] then
            .ok (store2, st2.i, t.stop, st2)
          else do
            let top ← match st2.scope_stack.getLast? with
              | some l => pure l
              | Option.none => Except.error PyErr.indexErr
            if nid ∈ top then
              close_scopeLoop nid prefix_attr suffix_attr single_paren symbols fuel
                store2 "" st2.i t.stop t.stop true st2
            else
              .ok (store2, st2.i, t.stop, st2)
        else
          close_scopeLoop nid prefix_attr suffix_attr single_paren symbols fuel
            store (result1 ++ t.src) parsed_to_i parsed_to_loc t.stop encountered st1
    else
      .ok (store, parsed_to_i, parsed_to_loc, { st1 with i := i' - 1, loc := st.loc })

/-- `TokenGenerator.close_scope(node, prefix_attr, suffix_attr,
trailing_comma, single_paren)` (token_generator.py lines 216-264):
default the prefix/suffix record entries, return unless a scope owned
by this node is open, consume closing parens popping both stacks, and
reset the cursor to the last fully parsed position. -/
def close_scope (node : ENode) (prefix_attr suffix_attr : String)
    (trailing_comma single_paren : Bool) (store : Store) (st : StA) :
    Except PyErr (Store × StA) := do
  let store0 := if (fmt_get store node.nid prefix_attr).isNone then
    setprop store node.nid prefix_attr (.str "") else store
  let store1 := if (fmt_get store0 node.nid suffix_attr).isNone then
    setprop store0 node.nid suffix_attr (.str "") else store0
  if st.parens = [] then .ok (store1, st)
  else do
    let top ← match st.scope_stack.getLast? with
      | some l => pure l
      | Option.none => Except.error PyErr.indexErr
    if node.nid ∈ top then do
      let symbols := if trailing_comma then [")", ","] else [")"]
      let (store2, pi, pl, st1) ← close_scopeLoop node.nid prefix_attr suffix_attr
        single_paren symbols ((st.tokens.length + 1 : Int) - st.i).toNat
        store1 "" st.i st.loc st.loc false st
      .ok (store2, { st1 with i := pi, loc := pl })
    else .ok (store1, st)

/-- One scoped visit of an atomic expression, as the annotator's
`with self.tokens.scope(node): ...` wraps it (token_generator.py lines
276-289 with `attr=None`): `open_scope(node, single_paren=False)`, the
visit body — modelled from the spec as consuming the node's own token —
then `close_scope(node)` with the default prefix/suffix attributes. -/
def tg_scope_visit (node : ENode) (store : Store) (st : StA) :
    Except PyErr (Store × StA) := do
  let st1 ← open_scope node false st
  let (_, st2) ← tg_next true st1
  close_scope node "prefix" "suffix" false false store st2

/-! ## Renaming external references (src/augment/rename.py and
pasta/augment/import_utils.py)

The tree fragment these operations edit: a module whose body is a list
of statements, with import statements owning alias nodes.  Statements
and aliases live in identity-keyed heaps so that the in-place
mutations of the Python code become heap updates. -/

/-- An `ast.alias` node. -/
structure AliasN where
  name : String
  asname : Option String
deriving DecidableEq, Repr

/-- A module-body statement: `ast.Import` and `ast.ImportFrom` carry
their alias ids; any other statement kind is opaque to renaming. -/
inductive StmtN where
| importS (names : List Nat)
| importFromS (moduleName : String) (names : List Nat) (level : Nat)
| otherS
deriving DecidableEq, Repr

/-- The alias ids of a statement (`node.names`). -/
def stmtNames : StmtN → List Nat
| .importS ns => ns
| .importFromS _ ns _ => ns
| .otherS => []

/-- A module tree: the body (statement ids in order) plus the
statement and alias heaps, and a fresh-id supply for `copy.deepcopy`
in `split_import`. -/
structure TreeR where
  body : List Nat
  stmts : List (Nat × StmtN)
  aliases : List (Nat × AliasN)
  nextId : Nat
deriving DecidableEq, Repr

/-- The identity of the Module node, the parent of every body
statement. -/
def moduleNodeId : Nat := 0

/-- Look a statement up by identity. -/
def lookupStmt (t : TreeR) (sid : Nat) : Option StmtN :=
  (t.stmts.find? (fun p => p.1 = sid)).map Prod.snd

/-- Look an alias up by identity. -/
def lookupAlias (t : TreeR) (aid : Nat) : Option AliasN :=
  (t.aliases.find? (fun p => p.1 = aid)).map Prod.snd

/-- In-place update of one statement. -/
def setStmt (t : TreeR) (sid : Nat) (s : StmtN) : TreeR :=
  { t with stmts := t.stmts.map (fun p => if p.1 = sid then (p.1, s) else p) }

/-- In-place update of one alias's `name` field. -/
def setAliasName (t : TreeR) (aid : Nat) (n : String) : TreeR :=
  { t with aliases :=
      t.aliases.map (fun p => if p.1 = aid then (p.1, { p.2 with name := n }) else p) }

/-- Python `'.'.join(parts)`. -/
def joinDots : List String → String
| [] => ""
| [p] => p
| p :: rest => p ++ "." ++ joinDots rest

/-- All dotted prefixes of a dotted name: for `a.b.c` the names `a`,
`a.b` and `a.b.c`. -/
def dottedPrefixes (s : String) : List String :=
  (List.range (pySplitDot s).length).map
    (fun k => joinDots ((pySplitDot s).take (k + 1)))

/-- One entry of the scope analysis's `external_references` lists: an
alias node, an ImportFrom node, or a read site (a Name or Attribute
node, which `rename_external` leaves untouched). -/
inductive RefNode where
| aliasRef (id : Nat)
| importFromRef (id : Nat)
| readRef (id : Nat)
deriving DecidableEq, Repr

/-- Modelled from the spec: the external references that the missing
scope-analysis collaborator (`pasta/base/scope.py`, spec §6) reports
for one dotted name over a tree: every import alias whose dotted name
has `key` as a dotted prefix, and every ImportFrom whose module path
has `key` as a dotted prefix or which imports `key` directly (module
plus alias name). -/
def refsFor (t : TreeR) (key : String) : List RefNode :=
  t.body.flatMap (fun sid =>
    match lookupStmt t sid with
    | some (.importS names) =>
      names.filterMap (fun aid =>
        match lookupAlias t aid with
        | some al =>
          if key ∈ dottedPrefixes al.name then some (.aliasRef aid) else Option.none
        | Option.none => Option.none)
    | some (.importFromS m names _) =>
      (if key ∈ dottedPrefixes m then [RefNode.importFromRef sid] else []) ++
      names.filterMap (fun aid =>
        match lookupAlias t aid with
        | some al =>
          if key = m ++ "." ++ al.name then some (.aliasRef aid) else Option.none
        | Option.none => Option.none)
    | _ => [])

/-- Modelled from the spec: membership of a name in the scope
analysis's `external_references` mapping (`old_name in
sc.external_references`). -/
def hasExternalRef (t : TreeR) (key : String) : Bool :=
  !(refsFor t key).isEmpty

/-- Modelled from the spec: the scope analysis's parent lookup
(`sc.parent(node)`, spec §6): an alias's parent is the import
statement owning it; a statement's parent is the Module. -/
def scParent (t : TreeR) (id : Nat) : Option Nat :=
  match t.stmts.find? (fun p => id ∈ stmtNames p.2) with
  | some p => some p.1
  | Option.none =>
    if (lookupStmt t id).isSome then some moduleNodeId else Option.none

/-- `new_import.names = [alias_to_remove]` of `split_import`: the
deep copy of the import keeps everything but its `names`, which
becomes the single given alias (the copy's own alias copies are
immediately discarded by that assignment, so they are not
modelled). -/
def stmtKeep : StmtN → Nat → StmtN
| .importS _, aid => .importS [aid]
| .importFromS m _ lvl, aid => .importFromS m [aid] lvl
| .otherS, _ => .otherS

/-- `node.names.remove(alias_to_remove)` of `split_import`: drop the
first occurrence of the alias from the statement's names. -/
def stmtErase : StmtN → Nat → StmtN
| .importS ns, aid => .importS (ns.erase aid)
| .importFromS m ns lvl, aid => .importFromS m (ns.erase aid) lvl
| .otherS, _ => .otherS

/-- `import_utils.split_import(sc, node, alias_to_remove)`
(pasta/augment/import_utils.py lines 29-57): find the body list of the
parent holding the import, deep-copy the import as a new statement
whose `names` is just the given alias, remove the alias from the
original, and insert the new statement right after the original.  `sc`
is the analysis snapshot taken before any mutation; the fresh
statement is allocated under `t.nextId`. -/
def split_import (sc : TreeR) (sid aidRemove : Nat) (t : TreeR) :
    Except PyErr (Nat × TreeR) := do
  let parent ← match scParent sc sid with
    | some p => pure p
    | Option.none => Except.error PyErr.keyErr
  if parent = moduleNodeId ∧ sid ∈ t.body then do
    let stmt ← match lookupStmt t sid with
      | some s => pure s
      | Option.none => Except.error (PyErr.attributeErr "names")
    .ok (t.nextId,
      { body := t.body.take (t.body.indexOf sid + 1) ++ [t.nextId] ++
          t.body.drop (t.body.indexOf sid + 1),
        stmts := (setStmt t sid (stmtErase stmt aidRemove)).stmts ++
          [(t.nextId, stmtKeep stmt aidRemove)],
        aliases := t.aliases,
        nextId := t.nextId + 1 })
  else
    .error (.invalidAst "Unable to find list containing import on parent node")

/-- The `for alias_to_change in node.names: ... else: return False`
search of `_rename_name_in_importfrom`: the first alias whose name is
the target. -/
def findAliasNamed (t : TreeR) (target : String) :
    List Nat → Except PyErr (Option Nat)
| [] => .ok Option.none
| aid :: rest =>
  match lookupAlias t aid with
  | Option.none => .error (.attributeErr "name")
  | some al =>
    if al.name = target then .ok (some aid) else findAliasNamed t target rest

/-- `rename._rename_name_in_importfrom(sc, node, old_name, new_name)`
(src/augment/rename.py lines 53-83): no-op returning False when the
names are equal; rename the module in place when `old_name` is a
dotted prefix of it; otherwise rename the matching alias (False when
none matches) and, when the package changed, either split the import
(more than one alias) or rewrite the module. -/
def rename_in_importfrom (sc : TreeR) (sid : Nat) (old new : String)
    (t : TreeR) : Except PyErr (Bool × TreeR) := do
  if old = new then .ok (false, t)
  else do
    let stmt ← match lookupStmt t sid with
      | some s => pure s
      | Option.none => Except.error (PyErr.attributeErr "module")
    match stmt with
    | .importFromS m names lvl =>
      if (pySplitDot m).take (pySplitDot old).length = pySplitDot old then
        .ok (true, setStmt t sid
          (.importFromS
            (joinDots (pySplitDot new ++ (pySplitDot m).drop (pySplitDot old).length))
            names lvl))
      else do
        let found ← findAliasNamed t (((pySplitDot old).getLast?).getD "") names
        match found with
        | Option.none => .ok (false, t)
        | some aid =>
          if pySplitDot m ≠ (pySplitDot new).dropLast then
            if names.length > 1 then do
              let (nid, t2) ← split_import sc sid aid
                (setAliasName t aid (((pySplitDot new).getLast?).getD ""))
              match lookupStmt t2 nid with
              | some (.importFromS _ ns2 lvl2) =>
                .ok (true, setStmt t2 nid
                  (.importFromS (joinDots (pySplitDot new).dropLast) ns2 lvl2))
              | _ => Except.error (PyErr.attributeErr "module")
            else
              .ok (true, setStmt
                (setAliasName t aid (((pySplitDot new).getLast?).getD "")) sid
                (.importFromS (joinDots (pySplitDot new).dropLast) names lvl))
          else
            .ok (true, setAliasName t aid (((pySplitDot new).getLast?).getD ""))
    | _ => Except.error (PyErr.attributeErr "module")

/-- The loop body of `rename_external` (src/augment/rename.py lines
35-48): alias nodes under an ImportFrom route through
`_rename_name_in_importfrom` once per statement (`already_changed`),
with the `assert` raising AssertionError when it returns False; alias
nodes under a plain Import are renamed in place by prefix
substitution; ImportFrom nodes route through the same helper; any
other reference node is ignored. -/
def renameLoop (sc : TreeR) (old new : String) :
    List RefNode → List Nat → TreeR → Except PyErr TreeR
| [], _, t => .ok t
| node :: rest, already, t => do
  match node with
  | .aliasRef aid => do
    let parent ← match scParent sc aid with
      | some p => pure p
      | Option.none => Except.error PyErr.keyErr
    match lookupStmt t parent with
    | some (.importFromS _ _ _) =>
      if parent ∉ already then do
        let (r, t') ← rename_in_importfrom sc parent old new t
        if r = false then Except.error PyErr.assertionErr
        else renameLoop sc old new rest (already ++ [parent]) t'
      else renameLoop sc old new rest already t
    | some (.importS _) =>
      match lookupAlias t aid with
      | some al =>
        renameLoop sc old new rest already
          (setAliasName t aid (new ++ strFrom al.name old.length))
      | Option.none => Except.error (PyErr.attributeErr "name")
    | _ => renameLoop sc old new rest already t
  | .importFromRef sid =>
    if sid ∉ already then do
      let (r, t') ← rename_in_importfrom sc sid old new t
      if r = false then Except.error PyErr.assertionErr
      else renameLoop sc old new rest (already ++ [sid]) t'
    else renameLoop sc old new rest already t
  | .readRef _ => renameLoop sc old new rest already t

/-- `rename.rename_external(t, old_name, new_name)`
(src/augment/rename.py lines 29-50): analyze the tree; return False
without touching it when `old_name` has no external references; else
process every reference and return True. -/
def rename_external (t : TreeR) (old new : String) :
    Except PyErr (Bool × TreeR) := do
  if hasExternalRef t old = false then .ok (false, t)
  else do
    let t' ← renameLoop t old new (refsFor t old) [] t
    .ok (true, t')

/-- The statement ids present in the statement heap. -/
def stmtKeys (t : TreeR) : List Nat := t.stmts.map Prod.fst

/-- The alias ids present in the alias heap. -/
def aliasKeys (t : TreeR) : List Nat := t.aliases.map Prod.fst

/-- The constructor tag of a statement (used to state that mutation
preserves a statement's kind). -/
def kindOf : StmtN → Nat
| .importS _ => 0
| .importFromS _ _ _ => 1
| .otherS => 2

/-- The alias ids of an ImportFrom statement (empty for every other
statement kind): the aliases whose names `from m import name` spells
as single identifiers. -/
def ifromNames : StmtN → List Nat
| .importFromS _ ns _ => ns
| _ => []

/-- Well-formedness of a tree, as Python guarantees for a module
freshly produced by `ast.parse`: alias ownership is unique (each alias
node object belongs to exactly one import statement), statement
objects are not alias objects, every alias id a statement mentions
resolves in the alias heap, the alias names of ImportFrom statements
contain no dot (`from m import name` names a single identifier; plain
Import aliases may well be dotted, as in `import a.b`), and all
allocated ids precede the fresh-id supply. -/
def TreeWF (t : TreeR) : Prop :=
  ((t.stmts.map (fun p => stmtNames p.2)).flatten).Nodup ∧
  (∀ p ∈ t.stmts, p.1 ∉ (t.stmts.map (fun q => stmtNames q.2)).flatten) ∧
  (∀ p ∈ t.stmts, ∀ aid ∈ stmtNames p.2, aid ∈ aliasKeys t) ∧
  (∀ p ∈ t.stmts, ∀ aid ∈ ifromNames p.2,
    ∀ q ∈ t.aliases, q.1 = aid → ('.' : Char) ∉ q.2.name.toList) ∧
  (∀ k ∈ stmtKeys t, k < t.nextId)

instance (t : TreeR) : Decidable (TreeWF t) := by
  unfold TreeWF; infer_instance

/-- What membership in `refsFor sc old` guarantees about a reference
node: provenance of the owning body statement, and how the dotted name
`old` relates to it. -/
def RefOK (sc : TreeR) (old : String) : RefNode → Prop
| .aliasRef aid => ∃ sid s, sid ∈ sc.body ∧ lookupStmt sc sid = some s ∧
    aid ∈ stmtNames s ∧
    ((∃ ns, s = .importS ns) ∨
     (∃ m ns lvl al, s = .importFromS m ns lvl ∧ lookupAlias sc aid = some al ∧
        old = m ++ "." ++ al.name))
| .importFromRef sid => ∃ m ns lvl, sid ∈ sc.body ∧
    lookupStmt sc sid = some (.importFromS m ns lvl) ∧ old ∈ dottedPrefixes m
| .readRef _ => True

/-- The loop invariant of `rename_external`'s reference loop, relating
the mutated tree `t` to the analysis snapshot `sc`: alias ids are
stable, statement kinds are stable, statements not yet processed (and
the aliases of unprocessed ImportFrom statements) are untouched, the
body only grows, and every statement id is below the fresh-id
supply. -/
structure Inv (sc : TreeR) (already : List Nat) (t : TreeR) : Prop where
  keysA : aliasKeys t = aliasKeys sc
  kinds : ∀ sid s₀, lookupStmt sc sid = some s₀ →
    ∃ s, lookupStmt t sid = some s ∧ kindOf s = kindOf s₀
  untouched : ∀ sid m ns lvl, lookupStmt sc sid = some (.importFromS m ns lvl) →
    sid ∉ already →
    lookupStmt t sid = some (.importFromS m ns lvl) ∧
      ∀ aid ∈ ns, lookupAlias t aid = lookupAlias sc aid
  grows : ∀ x ∈ sc.body, x ∈ t.body
  freshId : ∀ k ∈ stmtKeys t, k < t.nextId

/-! ## Concrete inputs for the claim theorems -/

/-- The source line of the C4 family: `n` open parens, the name `a`,
`n` close parens, newline. -/
def parenLine (n : Nat) : String :=
  ⟨List.replicate n '(' ++ 'a' :: (List.replicate n ')' ++ ['\n'])⟩

/-- The source text of the C4 family (one line). -/
def parenSrc (n : Nat) : String := parenLine n

/-- The `k`-th open-paren token of the C4 family. -/
def openTok (n k : Nat) : Tok :=
  { type := .OP, src := "(", start := (1, k), stop := (1, k + 1), line := parenLine n }

/-- The name token of the C4 family. -/
def nameTok (n : Nat) : Tok :=
  { type := .NAME, src := "a", start := (1, n), stop := (1, n + 1), line := parenLine n }

/-- The `j`-th close-paren token of the C4 family. -/
def closeTok (n j : Nat) : Tok :=
  { type := .OP, src := ")", start := (1, n + 1 + j), stop := (1, n + 2 + j), line := parenLine n }

/-- The token stream of the C4 family, as `tokenize.generate_tokens`
produces it for `'('*n + 'a' + ')'*n + '\n'`. -/
def parenToks (n : Nat) : List Tok :=
  (List.range n).map (openTok n) ++ [nameTok n] ++
  ((List.range n).map (closeTok n) ++
    [{ type := .NEWLINE, src := "\n", start := (1, 2 * n + 1), stop := (1, 2 * n + 2), line := parenLine n },
     { type := .ENDMARKER, src := "", start := (2, 0), stop := (2, 0), line := "" }])

/-- The tree of `from a import b`: one ImportFrom statement (id 10)
owning one alias (id 20). -/
def c8Tree : TreeR :=
  { body := [10],
    stmts := [(10, .importFromS "a" [20] 0)],
    aliases := [(20, { name := "b", asname := Option.none })],
    nextId := 100 }

/-- The tree of `import aaa.bbb.ccc`: one plain Import statement (id
10) owning one alias (id 20) whose name is dotted, as `ast.parse`
produces for dotted imports. -/
def c8TreeImp : TreeR :=
  { body := [10],
    stmts := [(10, .importS [20])],
    aliases := [(20, { name := "aaa.bbb.ccc", asname := Option.none })],
    nextId := 100 }

/-- Modelled from the spec: the tokenize output for the two-token
stream `")\n"`, used to exhibit a Token Stream state whose next token
is a closing parenthesis while no bracket group is open. -/
def closeToks : List Tok :=
  [⟨.OP, ")", (1, 0), (1, 1), ")\n"⟩,
   ⟨.NEWLINE, "\n", (1, 1), (1, 2), ")\n"⟩,
   ⟨.ENDMARKER, "", (2, 0), (2, 0), ""⟩]

/-- A freshly initialized Token Stream over `closeToks`: hint counter
zero, next token `")"`. -/
def closeSt : StA := initStA closeToks ")\n"

/-- The same stream with one bracket group open, for the amended-claim
witness. -/
def closeStOpen : StA := { initStA closeToks ")\n" with hints := 1 }

/-- The store of formatting records produced by annotating `passSrc`
(established against the pipeline by `pasta_parse_passSrc`). -/
def passStore : Store :=
  [(0, [("prefix", .str ""), ("suffix", .str "")]),
   (1, [("prefix", .str ""), ("suffix", .str "\n")])]

/-- The store of formatting records produced by annotating `impSrc`
(established against the pipeline by `pasta_parse_impSrc`). -/
def impStore : Store :=
  [(0, [("prefix", .str ""), ("suffix", .str "")]),
   (1, [("prefix", .str ""), ("module_prefix", .str " "),
        ("level__src", .int 0), ("module__src", .str "a"),
        ("module", .str "a"), ("module_suffix", .str " "),
        ("suffix", .str "")]),
   (2, [("prefix", .str " "), ("suffix", .str "\n")])]

/-- The formatting record of the ImportFrom node of `impSrc` after
annotation. -/
def impFromRec : FmtRec := (storeRec impStore 1).getD []

/-- The ImportFrom node of `impSrc` after the client edit
`node.module = 'x'`. -/
def mutatedImportFrom : PAst := .importFrom 1 "x" 0 [.aliasNode 2 "b" none]

/-! ## Theorems -/

/-- Bind on a successful embedded result. -/
theorem exceptBind_ok {a b : Type} (x : a) (f : a → Except PyErr b) :
    (Except.ok x >>= f) = f x := rfl

/-- Bind on a raised exception. -/
theorem exceptBind_err {a b : Type} (e : PyErr) (f : a → Except PyErr b) :
    ((Except.error e : Except PyErr a) >>= f) = Except.error e := rfl

set_option maxHeartbeats 4000000 in
/-- Annotating `passSrc` succeeds and produces `passStore`. -/
theorem pasta_parse_passSrc :
    pasta_parse passSrc = Except.ok (passTree, passStore) := by
  simp +decide [pasta_parse, ast_parse_model, pasta_dump, to_str,
    annotVisit, annot_prefix, annot_suffix, annot_attr, annot_attrVals,
    annot_token, an_whitespace, an_takewhile, an_takewhileGo, an_wsLoop, an_wsPred,
    an_space_between, space_between, peekA, nextA, rewindA, setup_props, storeRec,
    storeModify, setprop, appendprop, propGet, fmtGet, fmtSet, splitLinesKeep,
    splitLinesKeep.go, pySplitDot, pySplitDot.go, modulePattern, strIn, listInfixOf,
    pyListGet, locGT, strSlice, strFrom, listSlice, hint_open, hint_closed,
    annotAliases, annotVisitList, getattrP, hasattrP, PAst.nid, bind, Except.bind,
    Except.map, Option.map, pure, Except.pure, Option.getD, String.join,
    passTree, passToks, passSrc, impTree, impToks, impSrc, initStA, visitFuel,
    passStore, impStore]

set_option maxHeartbeats 4000000 in
/-- Annotating `impSrc` succeeds and produces `impStore`, including
the captured module text and its dependency shadows. -/
theorem pasta_parse_impSrc :
    pasta_parse impSrc = Except.ok (impTree, impStore) := by
  simp +decide [pasta_parse, ast_parse_model, pasta_dump, to_str,
    annotVisit, annot_prefix, annot_suffix, annot_attr, annot_attrVals,
    annot_token, an_whitespace, an_takewhile, an_takewhileGo, an_wsLoop, an_wsPred,
    an_space_between, space_between, peekA, nextA, rewindA, setup_props, storeRec,
    storeModify, setprop, appendprop, propGet, fmtGet, fmtSet, splitLinesKeep,
    splitLinesKeep.go, pySplitDot, pySplitDot.go, modulePattern, strIn, listInfixOf,
    pyListGet, locGT, strSlice, strFrom, listSlice, hint_open, hint_closed,
    annotAliases, annotVisitList, getattrP, hasattrP, PAst.nid, bind, Except.bind,
    Except.map, Option.map, pure, Except.pure, Option.getD, String.join,
    passTree, passToks, passSrc, impTree, impToks, impSrc, initStA, visitFuel,
    passStore, impStore]

/-- Dumping the annotated `passSrc` tree aborts with the NameError of
`Printer.attr`. -/
theorem to_str_passTree :
    to_str passTree passStore = Except.error (PyErr.nameErr "separate_before") := rfl

/-- Dumping the annotated `impSrc` tree aborts with the NameError of
`Printer.attr`. -/
theorem to_str_impTree :
    to_str impTree impStore = Except.error (PyErr.nameErr "separate_before") := rfl

/-- C1 (code_bug evidence): for the syntactically valid source
`"pass\n"`, `dump(parse(S))` does not return `S`: every `dump` call
aborts because `Printer.attr` evaluates the unbound name
`separate_before` (removed from the signature but still used in the
body), raising NameError before any text is emitted. -/
theorem C1_dump_parse_crashes :
    dumpParse passSrc = Except.error (PyErr.nameErr "separate_before") ∧
    dumpParse passSrc ≠ Except.ok passSrc := by
  have h1 : dumpParse passSrc = Except.error (PyErr.nameErr "separate_before") := by
    unfold dumpParse
    rw [pasta_parse_passSrc]
    exact to_str_passTree
  refine ⟨h1, ?_⟩
  intro h
  rw [h1] at h
  exact Except.noConfusion h

/-- C3 (code_bug evidence): for the valid source `"from a import b\n"`
the generated output that the idempotence property would re-parse never
exists: `dump(parse(S))` and therefore `dump(parse(dump(parse(S))))`
abort with the NameError raised by `Printer.attr`. -/
theorem C3_redump_never_reached :
    dumpParse impSrc = Except.error (PyErr.nameErr "separate_before") ∧
    dumpParseTwice impSrc = Except.error (PyErr.nameErr "separate_before") := by
  have h1 : dumpParse impSrc = Except.error (PyErr.nameErr "separate_before") := by
    unfold dumpParse
    rw [pasta_parse_impSrc]
    exact to_str_impTree
  refine ⟨h1, ?_⟩
  unfold dumpParseTwice
  rw [h1]
  rfl

/-- C2 (code_bug evidence): after annotating `"from a import b\n"` the
ImportFrom record stores the module text `"a"` with shadow
`module__src = "a"`; after the client edit `node.module = 'x'` the
dependency field differs from its shadow, so by the claim (and the
function docstring) the canonical default `"x"` must be emitted — but
the value selection of `Printer.attr` still returns the stale stored
`"a"`, because its staleness check is guarded by
`hasattr(node, dep + '__src')` and the shadows live in the formatting
record, never as node attributes. -/
theorem C2_stale_verbatim_replay :
    pasta_parse impSrc = Except.ok (impTree, impStore) ∧
    fmtGet impFromRec "module__src" = some (.str "a") ∧
    getattrP mutatedImportFrom "module" = some (.str "x") ∧
    printer_attr_val mutatedImportFrom impFromRec "module"
      (some ["level", "module"]) (some (.str "x")) = some (.str "a") := by
  exact ⟨pasta_parse_impSrc, rfl, rfl, rfl⟩

/-- C5 (counterexample to the claim as stated): a Token Stream state
whose next token is `")"` with no bracket group open; the caller asks
to consume the literal `")"`, the next token's text matches, and yet
`AstAnnotator.token` raises — the ValueError of the bracket-hint
underflow — instead of succeeding without error. -/
theorem C5_match_can_still_raise :
    (∃ t, pyListGet closeSt.tokens (closeSt.i + 1) = Except.ok t ∧ t.src = ")") ∧
    annot_token ")" closeSt = Except.error (PyErr.valueErr "Hint value negative") := by
  exact ⟨⟨⟨.OP, ")", (1, 0), (1, 1), ")\n"⟩, rfl, rfl⟩, rfl⟩

/-- C5 (amended): when a next token exists, a mismatching request
raises the structured error carrying the expected value, the found
token text and the originating source line, and a matching request
succeeds with no error and consumes the token — except that consuming
a matching closing bracket while no bracket group is open raises the
hint-underflow ValueError, which the added hypothesis rules out. -/
theorem C5_token_contract (st : StA) (v ln : String) (t : Tok)
    (hi : 0 ≤ st.i + 1) (hlen : st.i + 1 < (st.tokens.length : Int))
    (ht : pyListGet st.tokens (st.i + 1) = Except.ok t)
    (hline : pyListGet st.lines ((t.start.1 : Int) - 1) = Except.ok ln)
    (hbr : strIn v ")\x7d]" = true → t.src = v → 1 ≤ st.hints) :
    (t.src ≠ v →
      annot_token v st = Except.error (.unexpectedTok v t.src t.start.1 ln)) ∧
    (t.src = v →
      ∃ st', annot_token v st = Except.ok (v, st') ∧ st'.i = st.i + 1) := by
  have hnot : ¬ ((st.tokens.length : Int) ≤ st.i + 1) := not_le.mpr hlen
  have hnext : nextA true st =
      Except.ok (some t, { st with i := st.i + 1, loc := t.stop }) := by
    simp only [nextA, hnot, ite_false, if_neg, not_false_eq_true, ht]
    rfl
  constructor
  · intro hne
    unfold annot_token
    rw [hnext, exceptBind_ok]
    show (if t.src ≠ v then _ else _) = _
    rw [if_pos hne]
    show (pyListGet st.lines ((t.start.1 : Int) - 1) >>= _) = _
    rw [hline, exceptBind_ok]
  · intro heq
    by_cases hopen : strIn t.src "(\x7b[" = true
    · have hrun : annot_token v st = Except.ok (v,
          { st with i := st.i + 1, loc := t.stop, hints := hint_open st.hints }) := by
        unfold annot_token
        rw [hnext, exceptBind_ok]
        show (if t.src ≠ v then _ else _) = _
        rw [if_neg (by simp [heq]), if_pos hopen, heq]
      exact ⟨_, hrun, rfl⟩
    · by_cases hclose : strIn t.src ")\x7d]" = true
      · have hh : 1 ≤ st.hints := hbr (heq ▸ hclose) heq
        have hcl : hint_closed st.hints = Except.ok (st.hints - 1) := by
          unfold hint_closed
          rw [if_neg (by omega)]
        have hrun : annot_token v st = Except.ok (v,
            { st with i := st.i + 1, loc := t.stop, hints := st.hints - 1 }) := by
          unfold annot_token
          rw [hnext, exceptBind_ok]
          show (if t.src ≠ v then _ else _) = _
          rw [if_neg (by simp [heq]), if_neg hopen, if_pos hclose]
          show (hint_closed st.hints >>= _) = _
          rw [hcl, exceptBind_ok, heq]
        exact ⟨_, hrun, rfl⟩
      · have hrun : annot_token v st = Except.ok (v,
            { st with i := st.i + 1, loc := t.stop }) := by
          unfold annot_token
          rw [hnext, exceptBind_ok]
          show (if t.src ≠ v then _ else _) = _
          rw [if_neg (by simp [heq]), if_neg hopen, if_neg hclose, heq]
        exact ⟨_, hrun, rfl⟩

/-- C5 witness: applying the amended contract at a concrete state (the
`closeToks` stream with one bracket group open): consuming the
matching `")"` succeeds. -/
theorem C5_token_contract_witness :
    ∃ st', annot_token ")" closeStOpen = Except.ok (")", st') ∧
      st'.i = closeStOpen.i + 1 :=
  (C5_token_contract closeStOpen ")" ")\n" ⟨.OP, ")", (1, 0), (1, 1), ")\n"⟩
    (by decide) (by decide) (by decide) (by decide) (by decide)).2 (by decide)

/-- C6: `remove_child` raises the structured InvalidAstError exactly
when no list-valued field of the parent contains the child (returning
no modified parent), and otherwise removes the child in place from the
first list-valued field containing it, leaving all other fields
untouched. -/
theorem C6_remove_child_contract (fields : List (String × FieldVal)) (child : Nat) :
    ((∀ p ∈ fields, ∀ ids, p.2 = FieldVal.nodeList ids → child ∉ ids) →
      remove_child fields child =
        Except.error (PyErr.invalidAst
          "Unable to find list containing child on parent node")) ∧
    (∀ pre f ids post,
      fields = pre ++ (f, FieldVal.nodeList ids) :: post →
      child ∈ ids →
      (∀ p ∈ pre, ∀ ids', p.2 = FieldVal.nodeList ids' → child ∉ ids') →
      remove_child fields child =
        Except.ok (pre ++ (f, FieldVal.nodeList (ids.erase child)) :: post)) := by
  constructor
  · intro hnone
    induction fields with
    | nil => rfl
    | cons p rest ih =>
      obtain ⟨f, v⟩ := p
      have hrest := ih (fun q hq => hnone q (List.mem_cons_of_mem _ hq))
      match v with
      | .nodeList ids =>
        have hni : child ∉ ids :=
          hnone (f, .nodeList ids) (List.mem_cons_self _ _) ids rfl
        show remove_child ((f, FieldVal.nodeList ids) :: rest) child = _
        unfold remove_child
        dsimp only
        rw [if_neg hni]
        show (remove_child rest child >>= _) = _
        rw [hrest, exceptBind_err]
      | .node i =>
        show remove_child ((f, FieldVal.node i) :: rest) child = _
        unfold remove_child
        dsimp only
        show (remove_child rest child >>= _) = _
        rw [hrest, exceptBind_err]
      | .prim w =>
        show remove_child ((f, FieldVal.prim w) :: rest) child = _
        unfold remove_child
        dsimp only
        show (remove_child rest child >>= _) = _
        rw [hrest, exceptBind_err]
  · intro pre f ids post hsplit hmem hpre
    subst hsplit
    induction pre with
    | nil =>
      show remove_child ((f, FieldVal.nodeList ids) :: post) child = _
      unfold remove_child
      dsimp only
      rw [if_pos hmem]
      rfl
    | cons p rest ih =>
      obtain ⟨g, v⟩ := p
      have hrec := ih (fun q hq => hpre q (List.mem_cons_of_mem _ hq))
      match v with
      | .nodeList ids' =>
        have hni : child ∉ ids' :=
          hpre (g, .nodeList ids') (List.mem_cons_self _ _) ids' rfl
        show remove_child ((g, FieldVal.nodeList ids') ::
          (rest ++ (f, FieldVal.nodeList ids) :: post)) child = _
        unfold remove_child
        dsimp only
        rw [if_neg hni]
        show (remove_child (rest ++ (f, FieldVal.nodeList ids) :: post) child >>= _) = _
        rw [hrec, exceptBind_ok]
        rfl
      | .node i =>
        show remove_child ((g, FieldVal.node i) ::
          (rest ++ (f, FieldVal.nodeList ids) :: post)) child = _
        unfold remove_child
        dsimp only
        show (remove_child (rest ++ (f, FieldVal.nodeList ids) :: post) child >>= _) = _
        rw [hrec, exceptBind_ok]
        rfl
      | .prim w =>
        show remove_child ((g, FieldVal.prim w) ::
          (rest ++ (f, FieldVal.nodeList ids) :: post)) child = _
        unfold remove_child
        dsimp only
        show (remove_child (rest ++ (f, FieldVal.nodeList ids) :: post) child >>= _) = _
        rw [hrec, exceptBind_ok]
        rfl

/-- C6 witness: the contract applied to a concrete parent: with fields
`test -> node 5, body -> [1, 2, 3]`, removing the absent child 9
raises InvalidAstError, and removing child 2 rewrites `body` to
`[1, 3]`. -/
theorem C6_remove_child_witness :
    remove_child [("test", .node 5), ("body", .nodeList [1, 2, 3])] 9 =
      Except.error (PyErr.invalidAst
        "Unable to find list containing child on parent node") ∧
    remove_child [("test", .node 5), ("body", .nodeList [1, 2, 3])] 2 =
      Except.ok [("test", .node 5), ("body", .nodeList [1, 3])] := by
  constructor
  · refine (C6_remove_child_contract _ 9).1 ?_
    intro p hp ids heq
    rcases List.mem_cons.mp hp with rfl | hp2
    · simp at heq
    · rcases List.mem_cons.mp hp2 with rfl | hp3
      · injection heq with h
        subst h
        decide
      · cases hp3
  · refine (C6_remove_child_contract _ 2).2 [("test", .node 5)] "body" [1, 2, 3] []
      rfl (by decide) ?_
    intro p hp ids' heq
    rcases List.mem_cons.mp hp with rfl | hp2
    · simp at heq
    · cases hp2

/-- C7 (code_bug evidence): when the old node is not a child of the
parent, `replace_child` never raises the structured InvalidAstError
the claim requires: with a list-valued field present, `list.index`
raises an uncaught ValueError (the `except` clause names IndexError);
with no list-valued field, the final `raise` statement evaluates the
undefined name `child` and raises NameError. -/
theorem C7_replace_child_wrong_errors :
    replace_child [("body", .nodeList [10])] 99 50 false [] [] =
      Except.error (PyErr.valueErr "x not in list") ∧
    replace_child [("value", .node 10)] 99 50 false [] [] =
      Except.error (PyErr.nameErr "child") := by
  constructor <;> rfl

/-- How `opens` counts a leading open call. -/
theorem opens_cons_opn (l : List HintOp) : opens (.opn :: l) = opens l + 1 := by
  simp [opens, List.countP_cons]

/-- How `opens` counts a leading close call. -/
theorem opens_cons_cls (l : List HintOp) : opens (.cls :: l) = opens l := by
  simp [opens, List.countP_cons]

/-- How `closes` counts a leading open call. -/
theorem closes_cons_opn (l : List HintOp) : closes (.opn :: l) = closes l := by
  simp [closes, List.countP_cons]

/-- How `closes` counts a leading close call. -/
theorem closes_cons_cls (l : List HintOp) : closes (.cls :: l) = closes l + 1 := by
  simp [closes, List.countP_cons]

/-- The generalized invariant behind C9: from any non-negative counter
value, a call sequence whose every prefix keeps closes within the
counter plus its opens runs without error and ends at the balance. -/
theorem runHints_ok (l : List HintOp) : ∀ (c : Int), 0 ≤ c →
    (∀ n, n ≤ l.length → (closes (l.take n) : Int) ≤ c + opens (l.take n)) →
    runHints l c = Except.ok (c + opens l - closes l) := by
  induction l with
  | nil =>
    intro c _ _
    simp [runHints, opens, closes]
  | cons op rest ih =>
    intro c hc hpre
    cases op with
    | opn =>
      have hcond : ∀ n, n ≤ rest.length →
          (closes (rest.take n) : Int) ≤ (c + 1) + opens (rest.take n) := by
        intro n hn
        have h2 := hpre (n + 1) (by simpa using Nat.succ_le_succ hn)
        rw [List.take_succ_cons, opens_cons_opn, closes_cons_opn] at h2
        push_cast at h2 ⊢
        omega
      have hstep := ih (c + 1) (by omega) hcond
      show runHints (.opn :: rest) c = _
      unfold runHints
      rw [show hint_open c = c + 1 from rfl, hstep]
      rw [opens_cons_opn, closes_cons_opn]
      congr 1
      push_cast
      ring
    | cls =>
      have h1 : (1 : Int) ≤ c := by
        have h2 := hpre 1 (by simp)
        rw [List.take_succ_cons, List.take_zero] at h2
        rw [opens_cons_cls, closes_cons_cls] at h2
        simp [opens, closes] at h2
        omega
      have hcond : ∀ n, n ≤ rest.length →
          (closes (rest.take n) : Int) ≤ (c - 1) + opens (rest.take n) := by
        intro n hn
        have h2 := hpre (n + 1) (by simpa using Nat.succ_le_succ hn)
        rw [List.take_succ_cons, opens_cons_cls, closes_cons_cls] at h2
        push_cast at h2 ⊢
        omega
      have hstep := ih (c - 1) (by omega) hcond
      have hcl : hint_closed c = Except.ok (c - 1) := by
        unfold hint_closed
        rw [if_neg (by omega)]
      show runHints (.cls :: rest) c = _
      unfold runHints
      rw [hcl]
      show runHints rest (c - 1) = _
      rw [hstep]
      rw [opens_cons_cls, closes_cons_cls]
      congr 1
      push_cast
      ring

/-- C9: starting from zero, a sequence of `hint_open` and
`hint_closed` calls in which no prefix has more closes than opens runs
without error and leaves the counter at opens minus closes (hence
never negative at any point, since any negative intermediate value
would have raised); and any `hint_closed` call on a counter that is
not positive — i.e. whose decrement would make closes exceed the prior
opens — raises ValueError. -/
theorem C9_hint_counter (ops : List HintOp)
    (hpre : ∀ n, n ≤ ops.length →
      closes (List.take n ops) ≤ opens (List.take n ops)) :
    runHints ops 0 = Except.ok ((opens ops : Int) - closes ops) ∧
    (∀ k : Int, k ≤ 0 →
      hint_closed k = Except.error (PyErr.valueErr "Hint value negative")) := by
  constructor
  · have h := runHints_ok ops 0 le_rfl (fun n hn => by
      have h2 := hpre n hn
      push_cast
      omega)
    simpa using h
  · intro k hk
    unfold hint_closed
    rw [if_pos (by omega)]

/-- C9 witness: the contract applied to the concrete call sequence
open, open, close, close: it succeeds with final counter zero; and a
close on counter zero raises. -/
theorem C9_hint_counter_witness :
    runHints [.opn, .opn, .cls, .cls] 0 = Except.ok 0 ∧
    hint_closed 0 = Except.error (PyErr.valueErr "Hint value negative") := by
  have h := C9_hint_counter [.opn, .opn, .cls, .cls] (by decide)
  refine ⟨?_, h.2 0 (by decide)⟩
  have := h.1
  simpa [opens, closes] using this

/-- Evaluating a Python list access that is in bounds. -/
theorem pyListGet_ok {α : Type} (l : List α) (i : Int) (h0 : 0 ≤ i)
    (h1 : i.toNat < l.length) :
    pyListGet l i = Except.ok (l.get ⟨i.toNat, h1⟩) := by
  unfold pyListGet
  have hneg : ¬ i < 0 := not_lt.mpr h0
  simp only [hneg, if_false, ite_false]
  rw [dif_pos ⟨h0, h1⟩]

/-- Dropping the matched run is dropping its length. -/
theorem dropWhile_eq_drop_len {α : Type} (p : α → Bool) (l : List α) :
    l.dropWhile p = l.drop (l.takeWhile p).length := by
  induction l with
  | nil => rfl
  | cons a t ih =>
    by_cases h : p a = true <;>
      simp [List.dropWhile_cons, List.takeWhile_cons, h, ih]

/-- `find?` returns the head after dropping the non-matching run. -/
theorem find?_eq_head_dropWhile {α : Type} (p : α → Bool) (l : List α) :
    l.find? p = (l.dropWhile (fun x => !(p x))).head? := by
  induction l with
  | nil => rfl
  | cons a t ih =>
    by_cases h : p a = true <;>
      simp [List.find?_cons, List.dropWhile_cons, h, ih]

/-- Characterization of the loc-preserving takewhile loop with
`advance = False`: it consumes exactly the run of tokens after the
current index satisfying the condition, advancing only the index and
leaving the location (and everything else) unchanged. -/
theorem tg_takewhileGo_false (cond : Tok → Bool) :
    ∀ (fuel : Nat) (st : StA), -1 ≤ st.i →
      (((st.tokens.length : Int) + 1 - st.i).toNat ≤ fuel) →
      tg_takewhileGo cond false fuel st =
        Except.ok ((st.tokens.drop (st.i + 1).toNat).takeWhile cond,
          { st with i := st.i +
            ((st.tokens.drop (st.i + 1).toNat).takeWhile cond).length }) := by
  intro fuel
  induction fuel with
  | zero =>
    intro st hi hf
    have hd : st.tokens.drop (st.i + 1).toNat = [] :=
      List.drop_eq_nil_of_le (by omega)
    rw [hd]
    simp only [List.takeWhile_nil, List.length_nil]
    show Except.ok ([], st) = _
    rw [show st.i + ((0 : Nat) : Int) = st.i by push_cast; ring]
  | succ fuel ih =>
    intro st hi hf
    show tg_takewhileGo cond false (fuel + 1) st = _
    unfold tg_takewhileGo
    by_cases hend : (st.tokens.length : Int) ≤ st.i + 1
    · rw [if_pos hend]
      have hd : st.tokens.drop (st.i + 1).toNat = [] :=
        List.drop_eq_nil_of_le (by omega)
      rw [hd]
      simp only [List.takeWhile_nil, List.length_nil]
      rw [show st.i + 1 - 1 = st.i + ((0 : Nat) : Int) by push_cast; ring]
    · rw [if_neg hend]
      have hlt : (st.i + 1).toNat < st.tokens.length := by omega
      rw [pyListGet_ok st.tokens (st.i + 1) (by omega) hlt, exceptBind_ok]
      have hd : st.tokens.drop (st.i + 1).toNat =
          st.tokens.get ⟨(st.i + 1).toNat, hlt⟩ ::
            st.tokens.drop ((st.i + 1).toNat + 1) := by
        rw [List.drop_eq_getElem_cons hlt]
        rfl
      rw [hd]
      by_cases hc : cond (st.tokens.get ⟨(st.i + 1).toNat, hlt⟩) = true
      · rw [if_pos hc]
        have hrec := ih { st with i := st.i + 1, loc := st.loc }
          (by simp only []; omega) (by simp only []; omega)
        have harith : ((st.i + 1) + 1).toNat = (st.i + 1).toNat + 1 := by omega
        simp only [harith] at hrec
        show (tg_takewhileGo cond false fuel { st with i := st.i + 1, loc := st.loc } >>= _) = _
        rw [hrec, exceptBind_ok]
        rw [List.takeWhile_cons_of_pos hc]
        simp only [List.length_cons]
        rw [show st.i + 1 + ((st.tokens.drop ((st.i + 1).toNat + 1)).takeWhile cond).length =
          st.i + (((st.tokens.drop ((st.i + 1).toNat + 1)).takeWhile cond).length + 1 : Nat)
          by push_cast; ring]
      · rw [if_neg hc]
        rw [List.takeWhile_cons_of_neg hc]
        simp only [List.length_nil]
        rw [show st.i + 1 - 1 = st.i + ((0 : Nat) : Int) by push_cast; ring]

/-- C10: `TokenGenerator.next_name` is a pure lookahead: starting from
any well-formed stream state, it succeeds, returns exactly the next
NAME-type token in the stream (None when there is none), and returns
the state entirely unchanged — in particular the token index `_i` and
the parsed-to location `_loc` are what they were before the call, so
subsequent inter-token whitespace reconstruction is unaffected. -/
theorem C10_next_name_pure (st : StA) (hi : -1 ≤ st.i) :
    next_name st = Except.ok
      ((st.tokens.drop (st.i + 1).toNat).find? (fun t => t.type = TokType.NAME), st) := by
  unfold next_name tg_takewhile
  rw [tg_takewhileGo_false _ _ st hi (le_refl _), exceptBind_ok]
  set k := ((st.tokens.drop (st.i + 1).toNat).takeWhile
    (fun t => t.type ≠ TokType.NAME)).length with hk
  set idx := (st.i + 1).toNat + k with hidxdef
  have hfind : (st.tokens.drop (st.i + 1).toNat).find? (fun t => t.type = TokType.NAME) =
      (st.tokens.drop idx).head? := by
    rw [find?_eq_head_dropWhile]
    rw [show (fun (x : Tok) => !(decide (x.type = TokType.NAME))) =
      (fun (x : Tok) => decide (x.type ≠ TokType.NAME)) by
        funext x
        simp]
    rw [dropWhile_eq_drop_len, ← hk, List.drop_drop]
  rw [hfind]
  by_cases hend : (st.tokens.length : Int) ≤ (st.i + k) + 1
  · have hd : st.tokens.drop idx = [] := List.drop_eq_nil_of_le (by omega)
    rw [hd]
    show (tg_next false { st with i := st.i + k } >>= _) = _
    unfold tg_next
    rw [if_pos hend, exceptBind_ok]
    rfl
  · have hlt2 : idx < st.tokens.length := by omega
    have hpg : pyListGet st.tokens (st.i + (k : Int) + 1) =
        Except.ok (st.tokens.get ⟨idx, hlt2⟩) := by
      have hidx : (st.i + (k : Int) + 1).toNat = idx := by omega
      have hlt1 : (st.i + (k : Int) + 1).toNat < st.tokens.length := by omega
      rw [pyListGet_ok st.tokens _ (by omega) hlt1]
      exact congrArg _ (congrArg _ (Fin.ext hidx))
    have hhead : (st.tokens.drop idx).head? = some (st.tokens.get ⟨idx, hlt2⟩) := by
      rw [List.head?_drop]
      exact List.getElem?_eq_getElem hlt2
    rw [hhead]
    show (tg_next false { st with i := st.i + k } >>= _) = _
    unfold tg_next
    rw [if_neg hend]
    show ((pyListGet st.tokens (st.i + (k : Int) + 1) >>= _) >>= _) = _
    rw [hpg, exceptBind_ok, exceptBind_ok]
    rfl

/-- C10 witness: on the token stream of `"from a import b\n"` with the
`from` token already consumed, `next_name` returns the NAME token `a`
and the state is exactly the input state. -/
theorem C10_next_name_pure_witness :
    next_name { initStA impToks impSrc with i := 0 } = Except.ok
      (some ⟨.NAME, "a", (1, 5), (1, 6), impSrc⟩,
        { initStA impToks impSrc with i := 0 }) := by
  rw [C10_next_name_pure { initStA impToks impSrc with i := 0 } (by decide)]
  rfl

/-! ## Lemmas on dotted-name splitting -/

/-- `str.split` always returns at least one component. -/
theorem pySplitDot_go_ne_nil : ∀ (l acc : List Char), pySplitDot.go l acc ≠ []
| [], _ => by simp [pySplitDot.go]
| c :: cs, acc => by
  unfold pySplitDot.go
  by_cases h : c = '.'
  · simp [h]
  · simpa [h] using pySplitDot_go_ne_nil cs (c :: acc)

/-- `str.split` always returns at least one component. -/
theorem pySplitDot_ne_nil (s : String) : pySplitDot s ≠ [] :=
  pySplitDot_go_ne_nil s.toList []

/-- Components produced by splitting on a dot contain no dot. -/
theorem pySplitDot_go_dotFree : ∀ (l acc : List Char),
    (∀ ch ∈ acc, ch ≠ '.') → ∀ x ∈ pySplitDot.go l acc, ('.' : Char) ∉ x.toList
| [], acc => by
  intro h x hx
  simp [pySplitDot.go] at hx
  subst hx
  intro hdot
  exact h '.' (List.mem_reverse.mp hdot) rfl
| c :: cs, acc => by
  intro h x hx
  unfold pySplitDot.go at hx
  by_cases hc : c = '.'
  · rw [if_pos hc] at hx
    rcases List.mem_cons.mp hx with hx | hx
    · subst hx
      intro hdot
      exact h '.' (List.mem_reverse.mp hdot) rfl
    · exact pySplitDot_go_dotFree cs [] (by simp) x hx
  · rw [if_neg hc] at hx
    refine pySplitDot_go_dotFree cs (c :: acc) ?_ x hx
    intro ch hch
    rcases List.mem_cons.mp hch with rfl | hch
    · exact hc
    · exact h ch hch

/-- Components produced by splitting on a dot contain no dot. -/
theorem pySplitDot_dotFree (s : String) : ∀ x ∈ pySplitDot s, ('.' : Char) ∉ x.toList :=
  pySplitDot_go_dotFree s.toList [] (by simp)

/-- Unfolding equation of the split loop at the end of input. -/
theorem pySplitDot_go_nil (acc : List Char) :
    pySplitDot.go [] acc = [⟨acc.reverse⟩] := rfl

/-- Unfolding equation of the split loop at a dot. -/
theorem pySplitDot_go_dot (cs acc : List Char) :
    pySplitDot.go ('.' :: cs) acc = ⟨acc.reverse⟩ :: pySplitDot.go cs [] := by
  conv_lhs => unfold pySplitDot.go
  rw [if_pos rfl]

/-- Unfolding equation of the split loop at a non-dot character. -/
theorem pySplitDot_go_stay {c : Char} (cs acc : List Char) (h : c ≠ '.') :
    pySplitDot.go (c :: cs) acc = pySplitDot.go cs (c :: acc) := by
  conv_lhs => unfold pySplitDot.go
  rw [if_neg h]

/-- Splitting distributes over a dot in the middle of the character list. -/
theorem pySplitDot_go_append : ∀ (la acc lb : List Char),
    pySplitDot.go (la ++ '.' :: lb) acc = pySplitDot.go la acc ++ pySplitDot.go lb []
| [], acc, lb => by
  rw [List.nil_append, pySplitDot_go_dot, pySplitDot_go_nil]
  rfl
| c :: cs, acc, lb => by
  by_cases hc : c = '.'
  · subst hc
    rw [List.cons_append, pySplitDot_go_dot, pySplitDot_go_dot,
      pySplitDot_go_append cs [] lb]
    rfl
  · rw [List.cons_append, pySplitDot_go_stay _ _ hc, pySplitDot_go_stay _ _ hc]
    exact pySplitDot_go_append cs (c :: acc) lb

/-- `(a + "." + b).split` is `a.split` followed by `b.split`. -/
theorem pySplitDot_append (a b : String) :
    pySplitDot (a ++ "." ++ b) = pySplitDot a ++ pySplitDot b := by
  show pySplitDot.go ((a.data ++ ['.']) ++ b.data) [] =
    pySplitDot.go a.data [] ++ pySplitDot.go b.data []
  rw [List.append_assoc]
  exact pySplitDot_go_append a.data [] b.data

/-- Splitting a dot-free character list yields one component. -/
theorem pySplitDot_go_nodot : ∀ (l acc : List Char), (∀ c ∈ l, c ≠ '.') →
    pySplitDot.go l acc = [⟨acc.reverse ++ l⟩]
| [], acc => by simp [pySplitDot.go]
| c :: cs, acc => by
  intro h
  unfold pySplitDot.go
  rw [if_neg (h c (List.mem_cons_self c cs))]
  rw [pySplitDot_go_nodot cs (c :: acc) (fun x hx => h x (List.mem_cons_of_mem c hx))]
  have : (c :: acc).reverse ++ cs = acc.reverse ++ (c :: cs) := by simp
  rw [this]

/-- Splitting a dot-free string yields just that string. -/
theorem pySplitDot_nodot (b : String) (h : ('.' : Char) ∉ b.toList) :
    pySplitDot b = [b] := by
  unfold pySplitDot
  rw [pySplitDot_go_nodot b.toList [] (fun c hc he => h (he ▸ hc))]
  rfl

/-- `'.'.join` inverts splitting: joining nonempty dot-free parts and
splitting again recovers the parts. -/
theorem pySplitDot_joinDots : ∀ (parts : List String), parts ≠ [] →
    (∀ p ∈ parts, ('.' : Char) ∉ p.toList) → pySplitDot (joinDots parts) = parts
| [], h, _ => absurd rfl h
| [p], _, h => by
  show pySplitDot p = [p]
  exact pySplitDot_nodot p (h p (by simp))
| p :: q :: rest, _, h => by
  show pySplitDot (p ++ "." ++ joinDots (q :: rest)) = p :: q :: rest
  rw [pySplitDot_append, pySplitDot_nodot p (h p (by simp)),
    pySplitDot_joinDots (q :: rest) (by simp)
      (fun x hx => h x (List.mem_cons_of_mem p hx))]
  rfl

/-- A member of `dottedPrefixes m` splits into a literal prefix of
`m`'s components, so the `module_parts[:len(old_parts)] == old_parts`
test of `_rename_name_in_importfrom` succeeds on it. -/
theorem dottedPrefixes_take (old m : String) (h : old ∈ dottedPrefixes m) :
    (pySplitDot m).take (pySplitDot old).length = pySplitDot old := by
  unfold dottedPrefixes at h
  rw [List.mem_map] at h
  obtain ⟨k, hk, heq⟩ := h
  rw [List.mem_range] at hk
  have hne : (pySplitDot m).take (k + 1) ≠ [] := by
    cases hm : pySplitDot m with
    | nil => exact absurd hm (pySplitDot_ne_nil m)
    | cons a l => simp [List.take]
  have hsplit : pySplitDot old = (pySplitDot m).take (k + 1) := by
    rw [← heq]
    exact pySplitDot_joinDots _ hne
      (fun p hp => pySplitDot_dotFree m p (List.take_subset _ _ hp))
  rw [hsplit, List.length_take, Nat.min_eq_left (by omega)]

/-- Splitting `m + "." + name` for a dot-free `name` appends one
component. -/
theorem pySplitDot_concatName (m name : String) (hdf : ('.' : Char) ∉ name.toList) :
    pySplitDot (m ++ "." ++ name) = pySplitDot m ++ [name] := by
  rw [pySplitDot_append, pySplitDot_nodot name hdf]

/-- A list is never a proper prefix of itself extended by one element,
so the module-prefix test fails for `old = module + "." + name`. -/
theorem take_ne_concat (mp : List String) (name : String) :
    mp.take (mp ++ [name]).length ≠ mp ++ [name] := by
  intro h
  have hlen := congrArg List.length h
  simp [List.length_take] at hlen

/-! ## Lemmas on identity-keyed heaps -/

/-- A successful key lookup exposes a member of the heap. -/
theorem find?_key_mem {β : Type} {l : List (Nat × β)} {k : Nat} {b : β}
    (h : ((l.find? (fun p => p.1 = k)).map Prod.snd) = some b) : (k, b) ∈ l := by
  cases hf : l.find? (fun p => p.1 = k) with
  | none => rw [hf] at h; simp at h
  | some q =>
    rw [hf] at h
    simp at h
    have hm := List.mem_of_find?_eq_some hf
    have hq : q.1 = k := by simpa using List.find?_some hf
    obtain ⟨q1, q2⟩ := q
    cases hq
    cases h
    exact hm

/-- A key present in the heap's key list looks up successfully. -/
theorem find?_key_isSome {β : Type} {l : List (Nat × β)} {k : Nat}
    (h : k ∈ l.map Prod.fst) : ((l.find? (fun p => p.1 = k)).map Prod.snd).isSome := by
  rw [List.mem_map] at h
  obtain ⟨q, hq, hk⟩ := h
  have hs : (l.find? (fun p => p.1 = k)).isSome := by
    rw [List.find?_isSome]
    exact ⟨q, hq, by simp [hk]⟩
  cases hf : l.find? (fun p => p.1 = k) with
  | none => rw [hf] at hs; simp at hs
  | some r => simp

/-- Key-update of a heap: lookups at other keys are unchanged. -/
theorem find?_updg_ne {β : Type} (l : List (Nat × β)) (k : Nat) (g : Nat × β → β)
    (k' : Nat) (h : k' ≠ k) :
    (l.map (fun p => if p.1 = k then (p.1, g p) else p)).find? (fun p => p.1 = k') =
      l.find? (fun p => p.1 = k') := by
  induction l with
  | nil => rfl
  | cons p rest ih =>
    simp only [List.map_cons]
    by_cases hp : p.1 = k
    · have h2 : ¬(p.1 = k') := by rw [hp]; exact Ne.symm h
      rw [if_pos hp]
      rw [List.find?_cons_of_neg _ (by simpa using h2),
        List.find?_cons_of_neg _ (by simpa using h2)]
      exact ih
    · rw [if_neg hp]
      by_cases hp' : p.1 = k'
      · rw [List.find?_cons_of_pos _ (by simpa using hp'),
          List.find?_cons_of_pos _ (by simpa using hp')]
      · rw [List.find?_cons_of_neg _ (by simpa using hp'),
          List.find?_cons_of_neg _ (by simpa using hp')]
        exact ih

/-- Key-update of a heap: the lookup at the updated key sees the new
value, provided the key was present. -/
theorem find?_updg_self {β : Type} (l : List (Nat × β)) (k : Nat) (g : Nat × β → β)
    (h : ((l.find? (fun p => p.1 = k)).map Prod.snd).isSome) :
    ∃ p : Nat × β, l.find? (fun p => p.1 = k) = some p ∧ p.1 = k ∧
    ((l.map (fun p => if p.1 = k then (p.1, g p) else p)).find?
      (fun p => p.1 = k)).map Prod.snd = some (g p) := by
  induction l with
  | nil => simp [List.find?] at h
  | cons p rest ih =>
    by_cases hp : p.1 = k
    · refine ⟨p, List.find?_cons_of_pos _ (by simp [hp]), hp, ?_⟩
      simp only [List.map_cons, if_pos hp]
      rw [List.find?_cons_of_pos _ (by simp [hp])]
      rfl
    · rw [List.find?_cons_of_neg _ (by simp [hp])] at h ⊢
      obtain ⟨q, hq, hqk, hres⟩ := ih h
      refine ⟨q, hq, hqk, ?_⟩
      simp only [List.map_cons, if_neg hp]
      rw [List.find?_cons_of_neg _ (by simp [hp])]
      exact hres

/-- Key-update of a heap preserves the key list. -/
theorem map_updg_keys {β : Type} (l : List (Nat × β)) (k : Nat) (g : Nat × β → β) :
    (l.map (fun p => if p.1 = k then (p.1, g p) else p)).map Prod.fst =
      l.map Prod.fst := by
  rw [List.map_map]
  apply List.map_congr_left
  intro p _
  by_cases hp : p.1 = k <;> simp [hp]

/-- A successful search in the left part of a concatenation wins. -/
theorem find?_append_of_some {α : Type} {l₁ : List α} (l₂ : List α) {p : α → Bool}
    {x : α} (h : l₁.find? p = some x) : (l₁ ++ l₂).find? p = some x := by
  induction l₁ with
  | nil => simp [List.find?] at h
  | cons a rest ih =>
    cases hpa : p a with
    | true =>
      rw [List.find?_cons_of_pos _ hpa] at h
      rw [List.cons_append, List.find?_cons_of_pos _ hpa]
      exact h
    | false =>
      rw [List.find?_cons_of_neg _ (by simp [hpa])] at h
      rw [List.cons_append, List.find?_cons_of_neg _ (by simp [hpa])]
      exact ih h

/-- A failed search in the left part of a concatenation defers to the
right part. -/
theorem find?_append_of_none {α : Type} {l₁ : List α} (l₂ : List α) {p : α → Bool}
    (h : l₁.find? p = none) : (l₁ ++ l₂).find? p = l₂.find? p := by
  induction l₁ with
  | nil => rfl
  | cons a rest ih =>
    cases hpa : p a with
    | true => rw [List.find?_cons_of_pos _ hpa] at h; cases h
    | false =>
      rw [List.find?_cons_of_neg _ (by simp [hpa])] at h
      rw [List.cons_append, List.find?_cons_of_neg _ (by simp [hpa])]
      exact ih h

/-- A successful statement lookup exposes a member of the heap. -/
theorem lookupStmt_mem {t : TreeR} {sid : Nat} {s : StmtN}
    (h : lookupStmt t sid = some s) : (sid, s) ∈ t.stmts :=
  find?_key_mem h

/-- A successful alias lookup exposes a member of the heap. -/
theorem lookupAlias_mem {t : TreeR} {aid : Nat} {al : AliasN}
    (h : lookupAlias t aid = some al) : (aid, al) ∈ t.aliases :=
  find?_key_mem h

/-- An alias id present in the key list resolves. -/
theorem lookupAlias_isSome {t : TreeR} {aid : Nat} (h : aid ∈ aliasKeys t) :
    (lookupAlias t aid).isSome :=
  find?_key_isSome h

/-- `setStmt` leaves other statements alone. -/
theorem lookupStmt_setStmt_ne (t : TreeR) (sid : Nat) (s : StmtN) {sid' : Nat}
    (h : sid' ≠ sid) : lookupStmt (setStmt t sid s) sid' = lookupStmt t sid' := by
  unfold lookupStmt setStmt
  exact congrArg (Option.map Prod.snd) (find?_updg_ne t.stmts sid (fun _ => s) sid' h)

/-- `setStmt` installs the new statement at its key. -/
theorem lookupStmt_setStmt_self (t : TreeR) (sid : Nat) (s : StmtN)
    (h : (lookupStmt t sid).isSome) : lookupStmt (setStmt t sid s) sid = some s := by
  obtain ⟨q, _, _, hres⟩ := find?_updg_self t.stmts sid (fun _ => s) h
  exact hres

/-- `setAliasName` leaves other aliases alone. -/
theorem lookupAlias_setAliasName_ne (t : TreeR) (aid : Nat) (n : String) {aid' : Nat}
    (h : aid' ≠ aid) : lookupAlias (setAliasName t aid n) aid' = lookupAlias t aid' := by
  unfold lookupAlias setAliasName
  exact congrArg (Option.map Prod.snd)
    (find?_updg_ne t.aliases aid (fun p => { p.2 with name := n }) aid' h)

/-- `setStmt` preserves the statement key list. -/
theorem stmtKeys_setStmt (t : TreeR) (sid : Nat) (s : StmtN) :
    stmtKeys (setStmt t sid s) = stmtKeys t :=
  map_updg_keys t.stmts sid (fun _ => s)

/-- `setAliasName` preserves the alias key list. -/
theorem aliasKeys_setAliasName (t : TreeR) (aid : Nat) (n : String) :
    aliasKeys (setAliasName t aid n) = aliasKeys t :=
  map_updg_keys t.aliases aid (fun p => { p.2 with name := n })

/-- With unique alias ownership, searching the statement heap for the
owner of an alias finds exactly the owning entry. -/
theorem find?_names_owner (l : List (Nat × StmtN))
    (hnd : ((l.map (fun p => stmtNames p.2)).flatten).Nodup)
    {sid : Nat} {s : StmtN} {aid : Nat} (hmem : (sid, s) ∈ l)
    (haid : aid ∈ stmtNames s) :
    l.find? (fun p => aid ∈ stmtNames p.2) = some (sid, s) := by
  induction l with
  | nil => cases hmem
  | cons q rest ih =>
    rw [List.map_cons, List.flatten_cons] at hnd
    by_cases hq : aid ∈ stmtNames q.2
    · rw [List.find?_cons_of_pos _ (by simpa using hq)]
      rcases List.mem_cons.mp hmem with heq | hmem'
      · rw [heq]
      · exfalso
        have hdisj := List.disjoint_of_nodup_append hnd
        have : aid ∈ (rest.map (fun p => stmtNames p.2)).flatten := by
          rw [List.mem_flatten]
          exact ⟨stmtNames s, List.mem_map.mpr ⟨(sid, s), hmem', rfl⟩, haid⟩
        exact hdisj hq this
    · rw [List.find?_cons_of_neg _ (by simpa using hq)]
      rcases List.mem_cons.mp hmem with heq | hmem'
      · exact absurd (heq ▸ haid) hq
      · exact ih hnd.of_append_right hmem'

/-- With unique alias ownership, two distinct statements have disjoint
alias-id lists. -/
theorem names_disjoint {t : TreeR}
    (hnd : ((t.stmts.map (fun p => stmtNames p.2)).flatten).Nodup)
    {sid₁ sid₂ aid : Nat} {s₁ s₂ : StmtN}
    (h₁ : (sid₁, s₁) ∈ t.stmts) (h₂ : (sid₂, s₂) ∈ t.stmts) (hne : sid₁ ≠ sid₂)
    (ha₁ : aid ∈ stmtNames s₁) : aid ∉ stmtNames s₂ := by
  intro ha₂
  have e₁ := find?_names_owner t.stmts hnd h₁ ha₁
  have e₂ := find?_names_owner t.stmts hnd h₂ ha₂
  rw [e₁] at e₂
  exact hne (congrArg Prod.fst (Option.some.inj e₂))

/-- The parent of an owned alias node is its owning statement. -/
theorem scParent_alias (sc : TreeR)
    (hnd : ((sc.stmts.map (fun p => stmtNames p.2)).flatten).Nodup)
    {sid aid : Nat} {s : StmtN} (hlook : lookupStmt sc sid = some s)
    (haid : aid ∈ stmtNames s) : scParent sc aid = some sid := by
  unfold scParent
  rw [find?_names_owner sc.stmts hnd (lookupStmt_mem hlook) haid]

/-- The parent of a body statement is the Module node. -/
theorem scParent_stmt (sc : TreeR)
    (hids : ∀ p ∈ sc.stmts, p.1 ∉ (sc.stmts.map (fun q => stmtNames q.2)).flatten)
    {sid : Nat} {s : StmtN} (hlook : lookupStmt sc sid = some s) :
    scParent sc sid = some moduleNodeId := by
  unfold scParent
  have hnone : sc.stmts.find? (fun p => sid ∈ stmtNames p.2) = none := by
    rw [List.find?_eq_none]
    intro p hp
    simp only [decide_eq_true_eq]
    intro hmem
    have hflat : sid ∈ (sc.stmts.map (fun q => stmtNames q.2)).flatten := by
      rw [List.mem_flatten]
      exact ⟨stmtNames p.2, List.mem_map.mpr ⟨p, hp, rfl⟩, hmem⟩
    exact hids (sid, s) (lookupStmt_mem hlook) hflat
  rw [hnone]
  rw [if_pos (by rw [hlook]; rfl)]

/-- The for-else alias search of `_rename_name_in_importfrom` finds an
alias when all ids resolve and one of them bears the target name. -/
theorem findAliasNamed_finds (t : TreeR) (target : String) :
    ∀ ns : List Nat, (∀ a ∈ ns, a ∈ aliasKeys t) →
    (∃ a ∈ ns, ∃ al, lookupAlias t a = some al ∧ al.name = target) →
    ∃ a, findAliasNamed t target ns = Except.ok (some a) ∧ a ∈ ns := by
  intro ns
  induction ns with
  | nil =>
    rintro _ ⟨a, ha, _⟩
    cases ha
  | cons a rest ih =>
    rintro hres ⟨b, hb, al, hal, hname⟩
    have hA : (lookupAlias t a).isSome :=
      lookupAlias_isSome (hres a (List.mem_cons_self a rest))
    obtain ⟨ala, hala⟩ := Option.isSome_iff_exists.mp hA
    unfold findAliasNamed
    rw [hala]
    dsimp only
    by_cases hn : ala.name = target
    · rw [if_pos hn]
      exact ⟨a, rfl, List.mem_cons_self a rest⟩
    · rw [if_neg hn]
      rcases List.mem_cons.mp hb with rfl | hb'
      · rw [hal] at hala
        cases Option.some.inj hala
        exact absurd hname hn
      · obtain ⟨c, hc, hcmem⟩ :=
          ih (fun x hx => hres x (List.mem_cons_of_mem a hx)) ⟨b, hb', al, hal, hname⟩
        exact ⟨c, hc, List.mem_cons_of_mem a hcmem⟩

/-- Inserting into a body list keeps every existing element. -/
theorem mem_insertAt {α : Type} (l : List α) (n : Nat) (a x : α) (h : x ∈ l) :
    x ∈ l.take n ++ [a] ++ l.drop n := by
  rw [← List.take_append_drop n l] at h
  rcases List.mem_append.mp h with h | h
  · exact List.mem_append_left _ (List.mem_append_left _ h)
  · exact List.mem_append_right _ h

/-- Weakening: the loop invariant survives growing the processed
list. -/
theorem Inv.mono {sc : TreeR} {already already' : List Nat} {t : TreeR}
    (h : Inv sc already t) (hsub : ∀ x ∈ already, x ∈ already') :
    Inv sc already' t := by
  refine ⟨h.keysA, h.kinds, ?_, h.grows, h.freshId⟩
  intro sid m ns lvl hl hn
  exact h.untouched sid m ns lvl hl (fun hc => hn (hsub sid hc))

/-- The invariant holds initially between the snapshot and itself. -/
theorem inv_init (sc : TreeR) (hfresh : ∀ k ∈ stmtKeys sc, k < sc.nextId) :
    Inv sc [] sc :=
  ⟨rfl, fun _ s₀ h => ⟨s₀, h, rfl⟩, fun _ _ _ _ h _ => ⟨h, fun _ _ => rfl⟩,
    fun _ h => h, hfresh⟩

/-- Any statement id of the snapshot stays below the mutated tree's
fresh-id supply. -/
theorem inv_scid_lt {sc : TreeR} {already : List Nat} {t : TreeR}
    (hinv : Inv sc already t) {sid : Nat} {s₀ : StmtN}
    (h : lookupStmt sc sid = some s₀) : sid < t.nextId := by
  obtain ⟨s, hs, _⟩ := hinv.kinds sid s₀ h
  exact hinv.freshId sid (List.mem_map.mpr ⟨(sid, s), lookupStmt_mem hs, rfl⟩)

/-- A snapshot statement id resolves in the mutated tree. -/
theorem inv_isSome {sc : TreeR} {already : List Nat} {t : TreeR}
    (hinv : Inv sc already t) {sid : Nat} {s₀ : StmtN}
    (h : lookupStmt sc sid = some s₀) : (lookupStmt t sid).isSome := by
  obtain ⟨s, hs, _⟩ := hinv.kinds sid s₀ h
  rw [hs]
  rfl

/-- Bind on `pure` in the `Except` monad. -/
theorem exceptBind_pure {a b : Type} (x : a) (f : a → Except PyErr b) :
    ((pure x : Except PyErr a) >>= f) = f x := rfl

/-- A lookup that succeeds in the left part of a concatenated
statement heap succeeds in the whole heap. -/
theorem lookupStmt_append_left {t2 : TreeR} {A B : List (Nat × StmtN)}
    (hT : t2.stmts = A ++ B) {x : Nat} {s : StmtN}
    (h : (A.find? (fun p => p.1 = x)).map Prod.snd = some s) :
    lookupStmt t2 x = some s := by
  unfold lookupStmt
  rw [hT]
  cases hf : A.find? (fun p => p.1 = x) with
  | none => rw [hf] at h; simp at h
  | some q =>
    rw [hf] at h
    rw [find?_append_of_some B hf]
    exact h

/-- A lookup whose key misses the left part of a concatenated
statement heap falls through to the right part. -/
theorem lookupStmt_append_right {t2 : TreeR} {A B : List (Nat × StmtN)}
    (hT : t2.stmts = A ++ B) {x : Nat}
    (h : A.find? (fun p => p.1 = x) = none) :
    lookupStmt t2 x = (B.find? (fun p => p.1 = x)).map Prod.snd := by
  unfold lookupStmt
  rw [hT, find?_append_of_none B h]

/-- Renaming an alias owned by a processed or plain-Import statement
preserves the loop invariant. -/
theorem inv_setAliasName {sc : TreeR} {already : List Nat} {t : TreeR}
    (hinv : Inv sc already t)
    (hnd : ((sc.stmts.map (fun p => stmtNames p.2)).flatten).Nodup)
    {aid : Nat} (n : String) {sid₀ : Nat} {s₀ : StmtN}
    (hsc₀ : lookupStmt sc sid₀ = some s₀) (haid₀ : aid ∈ stmtNames s₀)
    (hexempt : sid₀ ∈ already ∨ kindOf s₀ = 0) :
    Inv sc already (setAliasName t aid n) := by
  refine ⟨?_, hinv.kinds, ?_, hinv.grows, hinv.freshId⟩
  · rw [aliasKeys_setAliasName]
    exact hinv.keysA
  · intro sid m ns lvl hl hnot
    obtain ⟨hstmt, hals⟩ := hinv.untouched sid m ns lvl hl hnot
    refine ⟨hstmt, ?_⟩
    intro aid' haid'
    have hne : aid' ≠ aid := by
      intro heq
      subst heq
      by_cases hss : sid₀ = sid
      · subst hss
        rw [hsc₀] at hl
        cases Option.some.inj hl
        rcases hexempt with hina | hk
        · exact hnot hina
        · simp [kindOf] at hk
      · exact names_disjoint hnd (lookupStmt_mem hsc₀) (lookupStmt_mem hl) hss haid₀
          (show aid' ∈ stmtNames (StmtN.importFromS m ns lvl) from haid')
    rw [lookupAlias_setAliasName_ne t aid n hne]
    exact hals aid' haid'

/-- Rewriting a processed statement with one of the same kind
preserves the loop invariant. -/
theorem inv_setStmt_processed {sc : TreeR} {already : List Nat} {t : TreeR}
    (hinv : Inv sc already t) {sid : Nat} {s' s₀ : StmtN}
    (hin : sid ∈ already) (hsc : lookupStmt sc sid = some s₀)
    (hkind : kindOf s' = kindOf s₀) :
    Inv sc already (setStmt t sid s') := by
  refine ⟨hinv.keysA, ?_, ?_, hinv.grows, ?_⟩
  · intro sid'' s₀'' h''
    by_cases he : sid'' = sid
    · subst he
      rw [hsc] at h''
      cases Option.some.inj h''
      exact ⟨s', lookupStmt_setStmt_self t sid'' s' (inv_isSome hinv hsc), hkind⟩
    · obtain ⟨s, hs, hk⟩ := hinv.kinds sid'' s₀'' h''
      exact ⟨s, by rw [lookupStmt_setStmt_ne t sid s' he]; exact hs, hk⟩
  · intro sid'' m ns lvl h'' hnot
    have hne : sid'' ≠ sid := fun he => hnot (he ▸ hin)
    obtain ⟨hstmt, hals⟩ := hinv.untouched sid'' m ns lvl h'' hnot
    exact ⟨by rw [lookupStmt_setStmt_ne t sid s' hne]; exact hstmt, hals⟩
  · intro k hk
    rw [stmtKeys_setStmt] at hk
    exact hinv.freshId k hk

/-- Rewriting a statement whose id no snapshot statement bears
preserves the loop invariant. -/
theorem inv_setStmt_new {sc : TreeR} {already : List Nat} {t : TreeR}
    (hinv : Inv sc already t) {sid : Nat} {s' : StmtN}
    (hfar : ∀ sid'' s₀, lookupStmt sc sid'' = some s₀ → sid'' ≠ sid) :
    Inv sc already (setStmt t sid s') := by
  refine ⟨hinv.keysA, ?_, ?_, hinv.grows, ?_⟩
  · intro sid'' s₀ h''
    obtain ⟨s, hs, hk⟩ := hinv.kinds sid'' s₀ h''
    exact ⟨s, by rw [lookupStmt_setStmt_ne t sid s' (hfar sid'' s₀ h'')]; exact hs, hk⟩
  · intro sid'' m ns lvl h'' hnot
    obtain ⟨hstmt, hals⟩ := hinv.untouched sid'' m ns lvl h'' hnot
    exact ⟨by rw [lookupStmt_setStmt_ne t sid s' (hfar _ _ h'')]; exact hstmt, hals⟩
  · intro k hk
    rw [stmtKeys_setStmt] at hk
    exact hinv.freshId k hk

/-- On a well-formed snapshot, `split_import` of a body ImportFrom
statement succeeds, allocates the new import under the fresh id, and
preserves the loop invariant. -/
theorem split_import_ok {sc : TreeR} {already : List Nat} {t1 : TreeR}
    (hinv : Inv sc already t1)
    (hids : ∀ p ∈ sc.stmts, p.1 ∉ (sc.stmts.map (fun q => stmtNames q.2)).flatten)
    {sid aidF : Nat} {m : String} {ns : List Nat} {lvl : Nat}
    (hbody : sid ∈ sc.body)
    (hsc : lookupStmt sc sid = some (.importFromS m ns lvl))
    (ht1 : lookupStmt t1 sid = some (.importFromS m ns lvl))
    (hin : sid ∈ already) :
    ∃ t2, split_import sc sid aidF t1 = Except.ok (t1.nextId, t2) ∧
      Inv sc already t2 ∧
      lookupStmt t2 t1.nextId = some (.importFromS m [aidF] lvl) := by
  refine ⟨{ body := t1.body.take (t1.body.indexOf sid + 1) ++ [t1.nextId] ++ t1.body.drop (t1.body.indexOf sid + 1), stmts := (setStmt t1 sid (.importFromS m (ns.erase aidF) lvl)).stmts ++ [(t1.nextId, .importFromS m [aidF] lvl)], aliases := t1.aliases, nextId := t1.nextId + 1 }, ?_, ?_, ?_⟩
  · unfold split_import
    rw [scParent_stmt sc hids hsc]
    show (Except.ok moduleNodeId >>= _) = _
    rw [exceptBind_ok]
    dsimp only
    rw [if_pos ⟨rfl, hinv.grows sid hbody⟩, ht1]
    show (Except.ok (StmtN.importFromS m ns lvl) >>= _) = _
    rw [exceptBind_ok]
    rfl
  · refine ⟨hinv.keysA, ?_, ?_, ?_, ?_⟩
    · intro sid'' s₀ h''
      by_cases he : sid'' = sid
      · subst he
        rw [hsc] at h''
        cases Option.some.inj h''
        refine ⟨.importFromS m (ns.erase aidF) lvl, ?_, rfl⟩
        exact lookupStmt_append_left rfl
          (lookupStmt_setStmt_self t1 sid'' _ (by rw [ht1]; rfl))
      · obtain ⟨s, hs, hk⟩ := hinv.kinds sid'' s₀ h''
        refine ⟨s, ?_, hk⟩
        refine lookupStmt_append_left rfl ?_
        show lookupStmt (setStmt t1 sid (.importFromS m (ns.erase aidF) lvl)) sid'' = some s
        rw [lookupStmt_setStmt_ne t1 sid _ he]
        exact hs
    · intro sid'' m'' ns'' lvl'' h'' hnot
      have hne : sid'' ≠ sid := fun he => hnot (he ▸ hin)
      obtain ⟨hstmt, hals⟩ := hinv.untouched sid'' m'' ns'' lvl'' h'' hnot
      refine ⟨?_, ?_⟩
      · refine lookupStmt_append_left rfl ?_
        show lookupStmt (setStmt t1 sid (.importFromS m (ns.erase aidF) lvl)) sid'' =
          some (StmtN.importFromS m'' ns'' lvl'')
        rw [lookupStmt_setStmt_ne t1 sid _ hne]
        exact hstmt
      · intro aid'' haid''
        exact hals aid'' haid''
    · intro x hx
      exact mem_insertAt t1.body _ t1.nextId x (hinv.grows x hx)
    · intro k hk
      have hk' : k ∈ stmtKeys (setStmt t1 sid (.importFromS m (ns.erase aidF) lvl)) ++
          [t1.nextId] := by
        simpa [stmtKeys, List.map_append] using hk
      rw [stmtKeys_setStmt] at hk'
      show k < t1.nextId + 1
      rcases List.mem_append.mp hk' with h | h
      · have := hinv.freshId k h
        omega
      · simp at h
        omega
  · have hnone : (setStmt t1 sid (.importFromS m (ns.erase aidF) lvl)).stmts.find?
        (fun p => p.1 = t1.nextId) = none := by
      rw [List.find?_eq_none]
      intro p hp
      simp only [decide_eq_true_eq]
      intro hpk
      have hk : p.1 ∈ stmtKeys (setStmt t1 sid (.importFromS m (ns.erase aidF) lvl)) :=
        List.mem_map.mpr ⟨p, hp, rfl⟩
      rw [stmtKeys_setStmt] at hk
      have := hinv.freshId p.1 hk
      omega
    rw [lookupStmt_append_right rfl hnone]
    rw [List.find?_cons_of_pos _ (by simp)]
    rfl

/-- On a well-formed snapshot, `_rename_name_in_importfrom` applied to
an unprocessed body ImportFrom statement that the scope analysis
reported for `old` returns True (never False, never an exception) and
preserves the loop invariant with the statement marked processed. -/
theorem rename_ifrom_ok (sc : TreeR) (old new : String) (hne : old ≠ new)
    (hnd : ((sc.stmts.map (fun p => stmtNames p.2)).flatten).Nodup)
    (hids : ∀ p ∈ sc.stmts, p.1 ∉ (sc.stmts.map (fun q => stmtNames q.2)).flatten)
    (hresolve : ∀ p ∈ sc.stmts, ∀ aid ∈ stmtNames p.2, aid ∈ aliasKeys sc)
    (hdf : ∀ p ∈ sc.stmts, ∀ aid ∈ ifromNames p.2,
      ∀ q ∈ sc.aliases, q.1 = aid → ('.' : Char) ∉ q.2.name.toList)
    {already : List Nat} {t : TreeR} (hinv : Inv sc already t)
    {sid : Nat} {m : String} {ns : List Nat} {lvl : Nat}
    (hbody : sid ∈ sc.body)
    (hsc : lookupStmt sc sid = some (.importFromS m ns lvl))
    (hnot : sid ∉ already)
    (hcase : old ∈ dottedPrefixes m ∨
      ∃ aid ∈ ns, ∃ al, lookupAlias sc aid = some al ∧ old = m ++ "." ++ al.name) :
    ∃ t', rename_in_importfrom sc sid old new t = Except.ok (true, t') ∧
      Inv sc (already ++ [sid]) t' := by
  obtain ⟨ht, hals⟩ := hinv.untouched sid m ns lvl hsc hnot
  have hmono : Inv sc (already ++ [sid]) t :=
    hinv.mono (fun x hx => List.mem_append_left _ hx)
  have hin' : sid ∈ already ++ [sid] := List.mem_append_right _ (by simp)
  rcases hcase with hpref | ⟨aid, haid, al, hal, hold⟩
  · have htake := dottedPrefixes_take old m hpref
    refine ⟨setStmt t sid (.importFromS (joinDots (pySplitDot new ++
        (pySplitDot m).drop (pySplitDot old).length)) ns lvl), ?_,
      inv_setStmt_processed hmono hin' hsc rfl⟩
    unfold rename_in_importfrom
    rw [if_neg hne, ht]
    show (Except.ok (StmtN.importFromS m ns lvl) >>= _) = _
    rw [exceptBind_ok]
    dsimp only
    rw [if_pos htake]
  · have hentry := lookupStmt_mem hsc
    have haid_from : aid ∈ ifromNames (StmtN.importFromS m ns lvl) := haid
    have haldf : ('.' : Char) ∉ al.name.toList :=
      hdf _ hentry aid haid_from _ (lookupAlias_mem hal) rfl
    have hsplit_old : pySplitDot old = pySplitDot m ++ [al.name] := by
      rw [hold]
      exact pySplitDot_concatName m al.name haldf
    have htake_ne : ¬((pySplitDot m).take (pySplitDot old).length = pySplitDot old) := by
      rw [hsplit_old]
      exact take_ne_concat _ _
    have hlast : ((pySplitDot old).getLast?).getD "" = al.name := by
      rw [hsplit_old, List.getLast?_concat]
      rfl
    have hres' : ∀ a ∈ ns, a ∈ aliasKeys t := by
      intro a ha
      rw [hinv.keysA]
      exact hresolve _ hentry a ha
    obtain ⟨aidF, hfind, haidF⟩ := findAliasNamed_finds t al.name ns hres'
      ⟨aid, haid, al, by rw [hals aid haid]; exact hal, rfl⟩
    have haidF_names : aidF ∈ stmtNames (StmtN.importFromS m ns lvl) := haidF
    have hinv1 : Inv sc (already ++ [sid])
        (setAliasName t aidF (((pySplitDot new).getLast?).getD "")) :=
      inv_setAliasName hmono hnd _ hsc haidF_names (Or.inl hin')
    have ht1 : lookupStmt (setAliasName t aidF (((pySplitDot new).getLast?).getD "")) sid =
        some (.importFromS m ns lvl) := ht
    by_cases hmod : pySplitDot m ≠ (pySplitDot new).dropLast
    · by_cases hlen : ns.length > 1
      · obtain ⟨t2, hsplit, hinv2, hnid⟩ := split_import_ok hinv1 hids hbody hsc ht1 hin'
        have hfar : ∀ sid'' s₀, lookupStmt sc sid'' = some s₀ →
            sid'' ≠ (setAliasName t aidF (((pySplitDot new).getLast?).getD "")).nextId := by
          intro sid'' s₀ h'' heq
          have := inv_scid_lt hinv1 h''
          omega
        refine ⟨setStmt t2 (setAliasName t aidF (((pySplitDot new).getLast?).getD "")).nextId
            (.importFromS (joinDots (pySplitDot new).dropLast) [aidF] lvl), ?_,
          inv_setStmt_new hinv2 hfar⟩
        unfold rename_in_importfrom
        rw [if_neg hne, ht]
        show (Except.ok (StmtN.importFromS m ns lvl) >>= _) = _
        rw [exceptBind_ok]
        dsimp only
        rw [if_neg htake_ne, hlast, hfind]
        show (Except.ok (some aidF) >>= _) = _
        rw [exceptBind_ok]
        dsimp only
        rw [if_pos hmod, if_pos hlen, hsplit]
        show (Except.ok ((setAliasName t aidF (((pySplitDot new).getLast?).getD "")).nextId, t2) >>= _) = _
        rw [exceptBind_ok]
        dsimp only
        rw [hnid]
      · refine ⟨setStmt (setAliasName t aidF (((pySplitDot new).getLast?).getD "")) sid
            (.importFromS (joinDots (pySplitDot new).dropLast) ns lvl), ?_,
          inv_setStmt_processed hinv1 hin' hsc rfl⟩
        unfold rename_in_importfrom
        rw [if_neg hne, ht]
        show (Except.ok (StmtN.importFromS m ns lvl) >>= _) = _
        rw [exceptBind_ok]
        dsimp only
        rw [if_neg htake_ne, hlast, hfind]
        show (Except.ok (some aidF) >>= _) = _
        rw [exceptBind_ok]
        dsimp only
        rw [if_pos hmod, if_neg hlen]
    · refine ⟨setAliasName t aidF (((pySplitDot new).getLast?).getD ""), ?_, hinv1⟩
      unfold rename_in_importfrom
      rw [if_neg hne, ht]
      show (Except.ok (StmtN.importFromS m ns lvl) >>= _) = _
      rw [exceptBind_ok]
      dsimp only
      rw [if_neg htake_ne, hlast, hfind]
      show (Except.ok (some aidF) >>= _) = _
      rw [exceptBind_ok]
      dsimp only
      rw [if_neg hmod]

/-- Every reference node the modelled scope analysis reports for a
dotted name carries the provenance `RefOK` records. -/
theorem refsFor_ok (sc : TreeR) (old : String) : ∀ r ∈ refsFor sc old, RefOK sc old r := by
  intro r hr
  unfold refsFor at hr
  rw [List.mem_flatMap] at hr
  obtain ⟨sid, hsid, hr⟩ := hr
  cases hstmt : lookupStmt sc sid with
  | none => rw [hstmt] at hr; simp at hr
  | some s =>
    rw [hstmt] at hr
    cases s with
    | importS names =>
      dsimp only at hr
      rw [List.mem_filterMap] at hr
      obtain ⟨aid, haid, hf⟩ := hr
      cases hal : lookupAlias sc aid with
      | none => rw [hal] at hf; simp at hf
      | some al =>
        rw [hal] at hf
        dsimp only at hf
        by_cases hd : old ∈ dottedPrefixes al.name
        · rw [if_pos hd] at hf
          cases Option.some.inj hf
          exact ⟨sid, .importS names, hsid, hstmt, haid, Or.inl ⟨names, rfl⟩⟩
        · rw [if_neg hd] at hf
          simp at hf
    | importFromS m names lvl =>
      dsimp only at hr
      rw [List.mem_append] at hr
      rcases hr with hr | hr
      · by_cases hd : old ∈ dottedPrefixes m
        · rw [if_pos hd] at hr
          simp at hr
          subst hr
          exact ⟨m, names, lvl, hsid, hstmt, hd⟩
        · rw [if_neg hd] at hr
          simp at hr
      · rw [List.mem_filterMap] at hr
        obtain ⟨aid, haid, hf⟩ := hr
        cases hal : lookupAlias sc aid with
        | none => rw [hal] at hf; simp at hf
        | some al =>
          rw [hal] at hf
          dsimp only at hf
          by_cases hd : old = m ++ "." ++ al.name
          · rw [if_pos hd] at hf
            cases Option.some.inj hf
            exact ⟨sid, .importFromS m names lvl, hsid, hstmt, haid,
              Or.inr ⟨m, names, lvl, al, rfl, hal, hd⟩⟩
          · rw [if_neg hd] at hf
            simp at hf
    | otherS =>
      dsimp only at hr
      simp at hr

/-- On a well-formed snapshot, the reference loop of `rename_external`
processes every reported reference without raising. -/
theorem renameLoop_ok (sc : TreeR) (old new : String) (hne : old ≠ new)
    (hnd : ((sc.stmts.map (fun p => stmtNames p.2)).flatten).Nodup)
    (hids : ∀ p ∈ sc.stmts, p.1 ∉ (sc.stmts.map (fun q => stmtNames q.2)).flatten)
    (hresolve : ∀ p ∈ sc.stmts, ∀ aid ∈ stmtNames p.2, aid ∈ aliasKeys sc)
    (hdf : ∀ p ∈ sc.stmts, ∀ aid ∈ ifromNames p.2,
      ∀ q ∈ sc.aliases, q.1 = aid → ('.' : Char) ∉ q.2.name.toList) :
    ∀ (refs : List RefNode) (already : List Nat) (t : TreeR),
      (∀ r ∈ refs, RefOK sc old r) → Inv sc already t →
      ∃ t', renameLoop sc old new refs already t = Except.ok t' := by
  intro refs
  induction refs with
  | nil =>
    intro already t _ _
    exact ⟨t, rfl⟩
  | cons r rest ih =>
    intro already t hok hinv
    have hrest : ∀ x ∈ rest, RefOK sc old x :=
      fun x hx => hok x (List.mem_cons_of_mem _ hx)
    cases r with
    | readRef i =>
      obtain ⟨t', hl⟩ := ih already t hrest hinv
      exact ⟨t', hl⟩
    | aliasRef aid =>
      obtain ⟨sid, s, hbody, hlook, hmem, hbranch⟩ := hok _ (List.mem_cons_self _ _)
      have hpar : scParent sc aid = some sid := scParent_alias sc hnd hlook hmem
      rcases hbranch with ⟨ns0, hseq⟩ | ⟨m, ns, lvl, al0, hseq, hal0, hold⟩
      · -- the owning statement is a plain Import: rename the alias in place
        subst hseq
        obtain ⟨s', hs', hk⟩ := hinv.kinds sid _ hlook
        cases s' with
        | importFromS m' ns' lvl' => simp [kindOf] at hk
        | otherS => simp [kindOf] at hk
        | importS ns1 =>
          have hA : (lookupAlias t aid).isSome := by
            apply lookupAlias_isSome
            rw [hinv.keysA]
            exact hresolve _ (lookupStmt_mem hlook) aid hmem
          obtain ⟨al, hal⟩ := Option.isSome_iff_exists.mp hA
          have hinv' : Inv sc already
              (setAliasName t aid (new ++ strFrom al.name old.length)) :=
            inv_setAliasName hinv hnd _ hlook hmem (Or.inr rfl)
          obtain ⟨t', hl⟩ := ih already _ hrest hinv'
          refine ⟨t', ?_⟩
          simp only [renameLoop, hpar, exceptBind_pure, hs', hal]
          exact hl
      · -- the owning statement is an ImportFrom
        subst hseq
        obtain ⟨s', hs', hk⟩ := hinv.kinds sid _ hlook
        cases s' with
        | importS ns1 => simp [kindOf] at hk
        | otherS => simp [kindOf] at hk
        | importFromS m' ns' lvl' =>
          by_cases hin : sid ∈ already
          · obtain ⟨t', hl⟩ := ih already t hrest hinv
            refine ⟨t', ?_⟩
            simp only [renameLoop, hpar, exceptBind_pure, hs']
            rw [if_neg (not_not_intro hin)]
            exact hl
          · obtain ⟨t₁, hok1, hinv1⟩ := rename_ifrom_ok sc old new hne hnd hids
              hresolve hdf hinv hbody hlook hin
              (Or.inr ⟨aid, hmem, al0, hal0, hold⟩)
            obtain ⟨t', hl⟩ := ih (already ++ [sid]) t₁ hrest hinv1
            refine ⟨t', ?_⟩
            simp only [renameLoop, hpar, exceptBind_pure, hs']
            rw [if_pos hin, hok1]
            simp only [exceptBind_ok]
            rw [if_neg (by decide : ¬(true = false))]
            exact hl
    | importFromRef sid =>
      obtain ⟨m, ns, lvl, hbody, hlook, hpref⟩ := hok _ (List.mem_cons_self _ _)
      by_cases hin : sid ∈ already
      · obtain ⟨t', hl⟩ := ih already t hrest hinv
        refine ⟨t', ?_⟩
        simp only [renameLoop]
        rw [if_neg (not_not_intro hin)]
        exact hl
      · obtain ⟨t₁, hok1, hinv1⟩ := rename_ifrom_ok sc old new hne hnd hids
          hresolve hdf hinv hbody hlook hin (Or.inl hpref)
        obtain ⟨t', hl⟩ := ih (already ++ [sid]) t₁ hrest hinv1
        refine ⟨t', ?_⟩
        simp only [renameLoop]
        rw [if_pos hin, hok1]
        simp only [exceptBind_ok]
        rw [if_neg (by decide : ¬(true = false))]
        exact hl

/-- C8 counterexample: the original claim's "when at least one
external reference matches, it returns True" half is false.  On the
tree of `from a import b`, the name `a.b` has an external reference
(the alias `b`), yet renaming `a.b` to itself makes
`_rename_name_in_importfrom` return False by its first guard, so the
`assert` in `rename_external` raises AssertionError instead of
returning True. -/
theorem C8_rename_noop_asserts :
    hasExternalRef c8Tree "a.b" = true ∧
    rename_external c8Tree "a.b" "a.b" = Except.error PyErr.assertionErr := by
  constructor
  · rfl
  · rfl

/-- C8 (amended): for a well-formed tree, if the dotted name old_name
has no external reference, rename_external returns False and the very
same tree (a safe no-op, not an exception), whatever new_name is; and
if old_name has an external reference and new_name differs from
old_name, it returns True (renaming a referenced old_name to itself
instead trips the assert, as the counterexample shows). -/
theorem C8_rename_external_contract (t : TreeR) (old new : String)
    (hwf : TreeWF t) :
    (hasExternalRef t old = false → rename_external t old new = Except.ok (false, t)) ∧
    (hasExternalRef t old = true → old ≠ new →
      ∃ t', rename_external t old new = Except.ok (true, t')) := by
  obtain ⟨hnd, hids, hresolve, hdf, hfresh⟩ := hwf
  constructor
  · intro h
    unfold rename_external
    rw [if_pos h]
  · intro h hne
    unfold rename_external
    rw [if_neg (by simp [h])]
    obtain ⟨t', hloop⟩ := renameLoop_ok t old new hne hnd hids hresolve hdf
      (refsFor t old) [] t (refsFor_ok t old) (inv_init t hfresh)
    rw [hloop, exceptBind_ok]
    exact ⟨t', rfl⟩

/-- C8 witness: on the well-formed tree of `from a import b`, renaming
`a.b` to the different name `x.y` returns True; on the well-formed
tree of `import aaa.bbb.ccc` (a dotted plain-Import alias), renaming
`aaa.bbb` to `xxx` returns True; and a name with no external reference
is a no-op returning False even when new_name equals old_name. -/
theorem C8_rename_external_contract_witness :
    (TreeWF c8Tree ∧ hasExternalRef c8Tree "a.b" = true ∧ ("a.b" : String) ≠ "x.y" ∧
      ∃ t', rename_external c8Tree "a.b" "x.y" = Except.ok (true, t')) ∧
    (TreeWF c8TreeImp ∧ hasExternalRef c8TreeImp "aaa.bbb" = true ∧
      ("aaa.bbb" : String) ≠ "xxx" ∧
      ∃ t', rename_external c8TreeImp "aaa.bbb" "xxx" = Except.ok (true, t')) ∧
    (hasExternalRef c8Tree "zzz" = false ∧
      rename_external c8Tree "zzz" "zzz" = Except.ok (false, c8Tree)) :=
  ⟨⟨by decide, by decide, by decide,
    (C8_rename_external_contract c8Tree "a.b" "x.y" (by decide)).2 (by decide) (by decide)⟩,
   ⟨by decide, by decide, by decide,
    (C8_rename_external_contract c8TreeImp "aaa.bbb" "xxx" (by decide)).2
      (by decide) (by decide)⟩,
   ⟨by decide,
    (C8_rename_external_contract c8Tree "zzz" "zzz" (by decide)).1 (by decide)⟩⟩

/-! ## Lemmas for the parenthesis-scope machinery -/

/-- A zero-width slice is empty. -/
theorem strSlice_self (s : String) (a : Nat) : strSlice s a a = "" := by
  unfold strSlice
  rw [List.drop_eq_nil_of_le (by simpa using List.length_take_le a s.toList)]

/-- Appending the empty string is the identity. -/
theorem strAppend_empty (s : String) : s ++ "" = s := by
  cases s with
  | mk l =>
    show String.mk (l ++ []) = String.mk l
    rw [List.append_nil]

/-- `splitlines` of a nonempty source is nonempty. -/
theorem splitLinesKeep_go_ne_nil : ∀ (l acc : List Char), l ≠ [] ∨ acc ≠ [] →
    splitLinesKeep.go l acc ≠ []
| [], acc, h => by
  rcases h with h | h
  · exact absurd rfl h
  · unfold splitLinesKeep.go
    cases acc with
    | nil => exact absurd rfl h
    | cons c cs => simp
| c :: cs, acc, _ => by
  unfold splitLinesKeep.go
  by_cases hc : c = '\n'
  · simp [hc]
  · simpa [hc] using splitLinesKeep_go_ne_nil cs (c :: acc) (Or.inr (by simp))

/-- `splitlines` of a nonempty source is nonempty. -/
theorem splitLinesKeep_pos (s : String) (h : s.toList ≠ []) :
    0 < (splitLinesKeep s).length :=
  List.length_pos.mpr (splitLinesKeep_go_ne_nil s.toList [] (Or.inl h))

/-- Mapping a constant yields a replicated list. -/
theorem map_const_replicate {α β : Type} (l : List α) (b : β) :
    l.map (fun _ => b) = List.replicate l.length b := by
  induction l with
  | nil => rfl
  | cons a rest ih => simp [List.replicate_succ, ih]

/-- The last element of a nonempty replicated list. -/
theorem replicate_getLast? {α : Type} (c : Nat) (a : α) (h : 0 < c) :
    (List.replicate c a).getLast? = some a := by
  induction c with
  | zero => cases h
  | succ m ih =>
    cases Nat.eq_zero_or_pos m with
    | inl h0 => subst h0; rfl
    | inr hpos =>
      rw [List.replicate_succ' m a, List.getLast?_concat]

/-- Dropping the last element of a replicated list. -/
theorem replicate_dropLast {α : Type} (c : Nat) (a : α) (h : 0 < c) :
    (List.replicate c a).dropLast = List.replicate (c - 1) a := by
  cases c with
  | zero => cases h
  | succ m =>
    rw [List.replicate_succ' m a, List.dropLast_concat]
    rfl

/-- `pyListGet` agrees with safe indexing at nonnegative indices. -/
theorem pyListGet_of_getElem? {α : Type} {l : List α} {i : Int} {x : α} (h0 : 0 ≤ i)
    (h : l[i.toNat]? = some x) : pyListGet l i = Except.ok x := by
  obtain ⟨hlt, hx⟩ := List.getElem?_eq_some.mp h
  rw [pyListGet_ok l i h0 hlt]
  rw [show l.get ⟨i.toNat, hlt⟩ = l[i.toNat] from rfl, hx]

/-- Token count of the C4 family. -/
theorem parenToks_length (n : Nat) : (parenToks n).length = 2 * n + 3 := by
  simp [parenToks]
  omega

/-- The `k`-th token of the C4 family is the `k`-th open paren. -/
theorem parenToks_get_open {n k : Nat} (h : k < n) :
    pyListGet (parenToks n) (k : Int) = Except.ok (openTok n k) := by
  apply pyListGet_of_getElem? (by omega)
  rw [Int.toNat_natCast]
  unfold parenToks
  rw [List.getElem?_append, if_pos (by simp; omega)]
  rw [List.getElem?_append, if_pos (by simp [h])]
  rw [List.getElem?_map, List.getElem?_range h]
  rfl

/-- The `n`-th token of the C4 family is the name token. -/
theorem parenToks_get_name (n : Nat) :
    pyListGet (parenToks n) (n : Int) = Except.ok (nameTok n) := by
  apply pyListGet_of_getElem? (by omega)
  rw [Int.toNat_natCast]
  unfold parenToks
  rw [List.getElem?_append, if_pos (by simp)]
  rw [List.getElem?_append, if_neg (by simp)]
  simp

/-- The `(n+1+j)`-th token of the C4 family is the `j`-th close
paren. -/
theorem parenToks_get_close {n j : Nat} (h : j < n) :
    pyListGet (parenToks n) ((n : Int) + 1 + j) = Except.ok (closeTok n j) := by
  apply pyListGet_of_getElem? (by omega)
  have ht : ((n : Int) + 1 + j).toNat = n + 1 + j := by omega
  rw [ht]
  unfold parenToks
  rw [List.getElem?_append, if_neg (by simp)]
  have hidx : n + 1 + j - ((List.range n).map (openTok n) ++ [nameTok n]).length = j := by
    simp
  rw [hidx]
  rw [List.getElem?_append, if_pos (by simp [h])]
  rw [List.getElem?_map, List.getElem?_range h]
  rfl

/-- The space between a location and a token starting at that same
location is empty. -/
theorem tg_space_between_eq (st : StA) (hl : 0 < st.lines.length) (c : Nat)
    (t : Tok) (ht : t.start = (1, c)) :
    tg_space_between st (1, c) t = Except.ok "" := by
  unfold tg_space_between
  rw [ht]
  dsimp only
  rw [if_neg (by simp [locGT])]
  rw [if_neg (by omega)]
  rw [if_pos rfl]
  obtain ⟨l₀, rest, hrest⟩ := List.exists_cons_of_ne_nil (List.ne_nil_of_length_pos hl)
  rw [hrest]
  rw [show ((1 : Nat) : Int) - 1 = (0 : Int) by norm_num]
  rw [pyListGet_ok (l₀ :: rest) 0 (by norm_num) (by simp)]
  rw [exceptBind_ok]
  rw [strSlice_self]

/-- Running the `open_scope` token loop on the C4 family from just
before the `j`-th token: it consumes the remaining `cnt` open parens,
pushing one paren text per consumed token, and stops at the name
token, restoring the cursor like the exhausted generator does. -/
theorem open_loop_run (n : Nat) : ∀ (cnt : Nat), ∀ (j fuel : Nat) (result : String)
    (parens : List String) (si : Int) (sl : Loc) (st : StA),
    st.tokens = parenToks n → st.i = (j : Int) - 1 → st.loc = ((1 : Nat), j) →
    j + cnt = n → cnt + 2 ≤ fuel → 0 < st.lines.length →
    open_scopeLoop false fuel result parens si sl (1, j) st =
      (if cnt = 0 then Except.ok (result, parens, si, sl, st)
       else Except.ok ("", parens ++ [result ++ "("] ++ List.replicate (cnt - 1) "(",
         (n : Int) - 1, ((1 : Nat), n),
         { st with i := (n : Int) - 1, loc := (1, n) })) := by
  intro cnt
  induction cnt with
  | zero =>
    intro j fuel result parens si sl st htok hi hloc hj hfuel hlines
    have hjn : j = n := by omega
    subst hjn
    rw [if_pos rfl]
    cases fuel with
    | zero => omega
    | succ f =>
      unfold open_scopeLoop
      rw [htok]
      have hidx : st.i + 1 = (j : Int) := by omega
      rw [hidx]
      rw [if_neg (by rw [parenToks_length]; omega)]
      rw [parenToks_get_name j, exceptBind_ok]
      dsimp only
      have hcond : (isFormatting (nameTok j).type || decide ((nameTok j).src = "(")) = false := by rfl
      rw [hcond, if_neg (by decide)]
      have hback : (j : Int) - 1 = st.i := hi.symm
      rw [hback, ← htok]
  | succ c ih =>
    intro j fuel result parens si sl st htok hi hloc hj hfuel hlines
    have hjn : j < n := by omega
    rw [if_neg (Nat.succ_ne_zero c)]
    cases fuel with
    | zero => omega
    | succ f =>
      unfold open_scopeLoop
      rw [htok]
      have hidx : st.i + 1 = (j : Int) := by omega
      rw [hidx]
      rw [if_neg (by rw [parenToks_length]; omega)]
      rw [parenToks_get_open hjn, exceptBind_ok]
      have hcond : (isFormatting (openTok n j).type || decide ((openTok n j).src = "(")) = true := by rfl
      rw [hcond, if_pos rfl]
      rw [tg_space_between_eq st hlines j (openTok n j) rfl, exceptBind_ok]
      dsimp only
      rw [if_neg (by simp)]
      rw [show (openTok n j).src = "(" from rfl]
      rw [show (openTok n j).stop = ((1 : Nat), j + 1) from rfl]
      rw [if_pos rfl]
      rw [strAppend_empty result]
      rw [ih (j + 1) f "" (parens ++ [result ++ "("]) ((j : Int)) (((1 : Nat), j + 1))
        { st with tokens := parenToks n, i := (j : Int), loc := ((1 : Nat), j + 1) }
        rfl (by show (j : Int) = ((j + 1 : Nat) : Int) - 1; push_cast; omega) rfl
        (by omega) (by omega) hlines]
      rcases Nat.eq_zero_or_pos c with hc | hc
      · subst hc
        rw [if_pos rfl]
        have h2 : j + 1 = n := by omega
        have h1 : (j : Int) = (n : Int) - 1 := by omega
        rw [h1, h2]
        rw [show List.replicate (1 - 1) "(" = ([] : List String) from rfl, List.append_nil]
      · rw [if_neg (by omega)]
        have hrep : List.replicate (c + 1 - 1) "(" = "(" :: List.replicate (c - 1) "(" := by
          cases c with
          | zero => omega
          | succ m => simp [List.replicate_succ]
        rw [hrep]
        rw [List.append_assoc (parens ++ [result ++ "("])]
        rfl

/-- `open_scope` on the unparenthesized family member is a no-op. -/
theorem open_scope_run_zero (nid0 : Nat) (st : StA)
    (htok : st.tokens = parenToks 0) (hi : st.i = -1) (hloc : st.loc = ((1 : Nat), 0))
    (hlines : 0 < st.lines.length) :
    open_scope (ENode.atom nid0) false st = Except.ok st := by
  unfold open_scope
  rw [hloc, htok, hi]
  rw [open_loop_run 0 0 0 _ "" [] (-1) ((1 : Nat), 0) st htok (by omega) hloc
    (by omega) (by rw [parenToks_length]; omega) hlines]
  rw [if_pos rfl, exceptBind_ok]
  dsimp only
  rw [if_neg (by simp)]
  rw [← hi, ← hloc]

/-- `open_scope` on a parenthesized family member consumes the `n`
open parens and pushes `n` entries onto the paren and scope stacks. -/
theorem open_scope_run_pos (n nid0 : Nat) (hn : 0 < n) (st : StA)
    (htok : st.tokens = parenToks n) (hi : st.i = -1) (hloc : st.loc = ((1 : Nat), 0))
    (hpar : st.parens = []) (hsc : st.scope_stack = []) (hlines : 0 < st.lines.length) :
    ∃ P : List String, P.length = n ∧
      open_scope (ENode.atom nid0) false st =
        Except.ok { st with i := (n : Int) - 1, loc := ((1 : Nat), n), parens := P, scope_stack := List.replicate n [nid0] } := by
  unfold open_scope
  rw [hloc, htok, hi]
  rw [open_loop_run n n 0 _ "" [] (-1) ((1 : Nat), 0) st htok (by omega) hloc
    (by omega) (by rw [parenToks_length]; omega) hlines]
  rw [if_neg (by omega)]
  rw [exceptBind_ok]
  dsimp only
  rw [if_pos (by simp)]
  unfold tg_peek
  dsimp only
  rw [htok, parenToks_length]
  rw [show ((n : Int) - 1 + 1) = (n : Int) by omega]
  rw [if_neg (by omega)]
  rw [parenToks_get_name n]
  rw [show (Except.ok (nameTok n)).map some = (Except.ok (some (nameTok n)) : Except PyErr (Option Tok)) from rfl]
  rw [exceptBind_ok]
  dsimp only
  rw [tg_space_between_eq { st with tokens := parenToks n, i := (n : Int) - 1, loc := ((1 : Nat), n) } hlines n (nameTok n) rfl]
  rw [exceptBind_ok]
  rw [show (nameTok n).start = ((1 : Nat), n) from rfl]
  have hPlen : ((([] : List String) ++ ["" ++ "("] ++ List.replicate (n - 1) "(").dropLast ++ [(([] : List String) ++ ["" ++ "("] ++ List.replicate (n - 1) "(").getLast?.getD "" ++ "" ++ ""]).length = n := by
    simp
    omega
  refine ⟨_, hPlen, ?_⟩
  rw [hsc]
  rw [show scope_helper (ENode.atom nid0) = [nid0] from rfl]
  rw [map_const_replicate, hPlen]
  rw [hpar]
  rfl

/-- Key-update of a string-keyed record: lookups at other keys are
unchanged. -/
theorem find?_updk_ne {κ β : Type} [DecidableEq κ] (l : List (κ × β)) (k : κ)
    (g : κ × β → β) (k' : κ) (h : k' ≠ k) :
    (l.map (fun p => if p.1 = k then (p.1, g p) else p)).find? (fun p => p.1 = k') =
      l.find? (fun p => p.1 = k') := by
  induction l with
  | nil => rfl
  | cons p rest ih =>
    simp only [List.map_cons]
    by_cases hp : p.1 = k
    · have h2 : ¬(p.1 = k') := by rw [hp]; exact Ne.symm h
      rw [if_pos hp]
      rw [List.find?_cons_of_neg _ (by simpa using h2),
        List.find?_cons_of_neg _ (by simpa using h2)]
      exact ih
    · rw [if_neg hp]
      by_cases hp' : p.1 = k'
      · rw [List.find?_cons_of_pos _ (by simpa using hp'),
          List.find?_cons_of_pos _ (by simpa using hp')]
      · rw [List.find?_cons_of_neg _ (by simpa using hp'),
          List.find?_cons_of_neg _ (by simpa using hp')]
        exact ih

/-- Key-update of a string-keyed record: the updated key sees the new
value when it was present. -/
theorem find?_updk_self {κ β : Type} [DecidableEq κ] (l : List (κ × β)) (k : κ)
    (g : κ × β → β)
    (h : ((l.find? (fun p => p.1 = k)).map Prod.snd).isSome) :
    ∃ p : κ × β, l.find? (fun p => p.1 = k) = some p ∧ p.1 = k ∧
    ((l.map (fun p => if p.1 = k then (p.1, g p) else p)).find?
      (fun p => p.1 = k)).map Prod.snd = some (g p) := by
  induction l with
  | nil => simp [List.find?] at h
  | cons p rest ih =>
    by_cases hp : p.1 = k
    · refine ⟨p, List.find?_cons_of_pos _ (by simpa using hp), hp, ?_⟩
      simp only [List.map_cons, if_pos hp]
      rw [List.find?_cons_of_pos _ (by simpa using hp)]
      rfl
    · rw [List.find?_cons_of_neg _ (by simpa using hp)] at h ⊢
      obtain ⟨q, hq, hqk, hres⟩ := ih h
      refine ⟨q, hq, hqk, ?_⟩
      simp only [List.map_cons, if_neg hp]
      rw [List.find?_cons_of_neg _ (by simpa using hp)]
      exact hres

/-- `fmt.set` stores the value under its key. -/
theorem fmtGet_fmtSet_self (r : FmtRec) (name : String) (v : PyVal) :
    fmtGet (fmtSet r name v) name = some v := by
  unfold fmtSet fmtGet
  by_cases hp : (r.find? (fun p => p.1 = name)).isSome
  · rw [if_pos hp]
    have hp' : ((r.find? (fun p => p.1 = name)).map Prod.snd).isSome := by
      cases hx : r.find? (fun p => p.1 = name) with
      | none => rw [hx] at hp; simp at hp
      | some q => simp [hx]
    obtain ⟨q, hq1, hq2, hres⟩ := find?_updk_self r name (fun _ => v) hp'
    exact hres
  · rw [if_neg hp]
    have hnone : r.find? (fun p => p.1 = name) = none :=
      Option.not_isSome_iff_eq_none.mp hp
    rw [find?_append_of_none _ hnone]
    rw [List.find?_cons_of_pos _ (by simp)]
    rfl

/-- `fmt.set` keeps the other keys. -/
theorem fmtGet_fmtSet_ne (r : FmtRec) (name name' : String) (v : PyVal)
    (h : name' ≠ name) :
    fmtGet (fmtSet r name v) name' = fmtGet r name' := by
  unfold fmtSet fmtGet
  by_cases hp : (r.find? (fun p => p.1 = name)).isSome
  · rw [if_pos hp, find?_updk_ne r name (fun _ => v) name' h]
  · rw [if_neg hp]
    cases hf : r.find? (fun p => p.1 = name') with
    | some q => rw [find?_append_of_some _ hf]
    | none =>
      rw [find?_append_of_none _ hf, List.find?_cons_of_neg _ (by simpa using Ne.symm h)]
      rfl

/-- A store whose record for a node has string-valued prefix and
suffix entries, so `fmt.prepend`/`fmt.append` keep succeeding. -/
def StoreOK (s : Store) (id : Nat) : Prop :=
  ∃ r, storeRec s id = some r ∧ (∃ a, propGet r "prefix" = PyVal.str a) ∧
    (∃ b, propGet r "suffix" = PyVal.str b)

/-- `storeModify` rewrites the present record pointwise. -/
theorem storeRec_modify_self (s : Store) (id : Nat) (f : FmtRec → FmtRec)
    {r : FmtRec} (h : storeRec s id = some r) :
    storeRec (storeModify s id f) id = some (f r) := by
  have hs : ((s.find? (fun p => p.1 = id)).map Prod.snd).isSome := by
    unfold storeRec at h
    rw [h]
    rfl
  obtain ⟨p, hp1, hp2, hres⟩ := find?_updg_self s id (fun p => f p.2) hs
  unfold storeRec at h
  rw [hp1] at h
  simp at h
  unfold storeRec storeModify
  rw [hres, h]

/-- `fmt.append(node, 'suffix', v)` succeeds on a well-kept store and
keeps it well-kept. -/
theorem appendprop_ok {s : Store} {id : Nat} (v : String) (hok : StoreOK s id) :
    ∃ s', appendprop s id "suffix" v = Except.ok s' ∧ StoreOK s' id := by
  obtain ⟨r, hr, ⟨a, hpa⟩, ⟨b, hpb⟩⟩ := hok
  unfold appendprop
  rw [hr]
  dsimp only
  rw [hpb]
  refine ⟨_, rfl, ?_⟩
  refine ⟨fmtSet r "suffix" (.str (b ++ v)), storeRec_modify_self s id _ hr,
    ⟨a, ?_⟩, ⟨b ++ v, ?_⟩⟩
  · unfold propGet at hpa ⊢
    rw [fmtGet_fmtSet_ne r "suffix" "prefix" _ (by decide)]
    exact hpa
  · unfold propGet
    rw [fmtGet_fmtSet_self]
    rfl

/-- `fmt.prepend(node, 'prefix', v)` succeeds on a well-kept store and
keeps it well-kept. -/
theorem prependprop_ok {s : Store} {id : Nat} (v : String) (hok : StoreOK s id) :
    ∃ s', prependprop s id "prefix" v = Except.ok s' ∧ StoreOK s' id := by
  obtain ⟨r, hr, ⟨a, hpa⟩, ⟨b, hpb⟩⟩ := hok
  unfold prependprop
  rw [hr]
  dsimp only
  rw [hpa]
  refine ⟨_, rfl, ?_⟩
  refine ⟨fmtSet r "prefix" (.str (v ++ a)), storeRec_modify_self s id _ hr,
    ⟨v ++ a, ?_⟩, ⟨b, ?_⟩⟩
  · unfold propGet
    rw [fmtGet_fmtSet_self]
    rfl
  · unfold propGet at hpb ⊢
    rw [fmtGet_fmtSet_ne r "prefix" "suffix" _ (by decide)]
    exact hpb

/-- `setprop` on the empty store creates a one-entry record. -/
theorem setprop_empty (id : Nat) (name : String) (v : PyVal) :
    setprop [] id name v = [(id, [(name, v)])] := by
  simp [setprop, setup_props, storeRec, storeModify, fmtSet, fmtGet, List.find?]

/-- The record the two `close_scope` presets build on an empty store
is well-kept. -/
theorem preset_storeOK (id : Nat) :
    StoreOK [(id, [("prefix", PyVal.str ""), ("suffix", PyVal.str "")])] id := by
  refine ⟨[("prefix", PyVal.str ""), ("suffix", PyVal.str "")], ?_, ⟨"", ?_⟩, ⟨"", ?_⟩⟩
  · unfold storeRec
    rw [List.find?_cons_of_pos _ (by simp)]
    rfl
  · decide
  · decide

/-- Running the `close_scope` token loop on the C4 family from just
before the `j`-th closing paren: it consumes the remaining `c` closing
parens, popping one paren text and one scope entry per token, keeps
the store well-kept, and stops with both stacks empty, reporting the
last closing paren as the parsed-to position. -/
theorem close_loop_run (n nid0 : Nat) : ∀ (c : Nat), ∀ (j fuel : Nat) (store : Store)
    (result : String) (pi : Int) (pl : Loc) (enc : Bool) (st : StA),
    st.tokens = parenToks n → st.i = (n : Int) + j → st.loc = ((1 : Nat), n + 1 + j) →
    j + c = n → 0 < c → c + 1 ≤ fuel → 0 < st.lines.length →
    st.parens.length = c → st.scope_stack = List.replicate c [nid0] →
    StoreOK store nid0 →
    ∃ store', StoreOK store' nid0 ∧
      close_scopeLoop nid0 "prefix" "suffix" false [")"] fuel store result pi pl
        (1, n + 1 + j) enc st =
      Except.ok (store', (2 * n : Int), ((1 : Nat), 2 * n + 1),
        { st with i := (2 * n : Int), loc := ((1 : Nat), 2 * n + 1), parens := [], scope_stack := [] }) := by
  intro c
  induction c with
  | zero =>
    intro j fuel store result pi pl enc st _ _ _ _ hc
    exact absurd hc (by omega)
  | succ m ih =>
    intro j fuel store result pi pl enc st htok hi hloc hj hc hfuel hlines hplen hsc hstore
    have hjn : j < n := by omega
    cases fuel with
    | zero => omega
    | succ f =>
      obtain ⟨p0, hp0⟩ : ∃ p0, st.parens.getLast? = some p0 := by
        cases hq : st.parens.getLast? with
        | some p => exact ⟨p, rfl⟩
        | none =>
          rw [List.getLast?_eq_none_iff] at hq
          rw [hq] at hplen
          simp at hplen
      obtain ⟨s1, hs1, hs1OK⟩ := prependprop_ok p0 hstore
      obtain ⟨s2, hs2, hs2OK⟩ := appendprop_ok (result ++ "" ++ ")") hs1OK
      rcases Nat.eq_zero_or_pos m with hm | hm
      · -- last closing paren: the loop breaks with both stacks empty
        subst hm
        have hjn1 : j + 1 = n := by omega
        have hnil : st.parens.dropLast = [] := by
          rw [← List.length_eq_zero, List.length_dropLast, hplen]
        refine ⟨s2, hs2OK, ?_⟩
        unfold close_scopeLoop
        rw [htok]
        have hidx : st.i + 1 = (n : Int) + 1 + j := by omega
        rw [hidx]
        rw [if_neg (by rw [parenToks_length]; omega)]
        rw [parenToks_get_close hjn, exceptBind_ok]
        have hcond : (isFormatting (closeTok n j).type || [")"].contains (closeTok n j).src) = true := by rfl
        rw [hcond, if_pos rfl]
        rw [tg_space_between_eq st hlines (n + 1 + j) (closeTok n j) rfl, exceptBind_ok]
        rw [if_neg (by simp)]
        rw [show (closeTok n j).src = ")" from rfl]
        rw [if_pos rfl]
        rw [hsc, replicate_getLast? 1 [nid0] (by omega)]
        show (Except.ok [nid0] >>= _) = _
        rw [exceptBind_ok]
        rw [hp0]
        show (Except.ok p0 >>= _) = _
        rw [exceptBind_ok]
        dsimp only
        rw [hs1, exceptBind_ok, hs2, exceptBind_ok]
        rw [hnil]
        rw [if_pos rfl]
        rw [show (closeTok n j).stop = ((1 : Nat), n + 2 + j) from rfl]
        have e2 : (n : Int) + 1 + (j : Int) = 2 * n := by omega
        have e3 : n + 2 + j = 2 * n + 1 := by omega
        rw [e2, e3]
        rfl
      · -- more parens remain: one pop, then the loop continues
        have hdl : st.parens.dropLast.length = m := by
          rw [List.length_dropLast, hplen]
          omega
        have hne : st.parens.dropLast ≠ [] := by
          apply List.ne_nil_of_length_pos
          omega
        obtain ⟨store', hOK, hrun⟩ := ih (j + 1) f s2 "" ((n : Int) + 1 + j)
          ((1 : Nat), n + 1 + (j + 1)) true
          { st with tokens := parenToks n, parens := st.parens.dropLast, scope_stack := List.replicate m [nid0], i := (n : Int) + 1 + (j : Int), loc := ((1 : Nat), n + 1 + (j + 1)) }
          rfl (by show (n : Int) + 1 + (j : Int) = (n : Int) + ((j + 1 : Nat) : Int); push_cast; omega)
          rfl (by omega) hm (by omega) hlines (by show st.parens.dropLast.length = m; exact hdl)
          rfl hs2OK
        refine ⟨store', hOK, ?_⟩
        unfold close_scopeLoop
        rw [htok]
        have hidx : st.i + 1 = (n : Int) + 1 + j := by omega
        rw [hidx]
        rw [if_neg (by rw [parenToks_length]; omega)]
        rw [parenToks_get_close hjn, exceptBind_ok]
        have hcond : (isFormatting (closeTok n j).type || [")"].contains (closeTok n j).src) = true := by rfl
        rw [hcond, if_pos rfl]
        rw [tg_space_between_eq st hlines (n + 1 + j) (closeTok n j) rfl, exceptBind_ok]
        rw [if_neg (by simp)]
        rw [show (closeTok n j).src = ")" from rfl]
        rw [if_pos rfl]
        rw [hsc, replicate_getLast? (m + 1) [nid0] (by omega)]
        show (Except.ok [nid0] >>= _) = _
        rw [exceptBind_ok]
        rw [hp0]
        show (Except.ok p0 >>= _) = _
        rw [exceptBind_ok]
        dsimp only
        rw [hs1, exceptBind_ok, hs2, exceptBind_ok]
        rw [if_neg hne]
        rw [replicate_dropLast (m + 1) [nid0] (by omega)]
        rw [show m + 1 - 1 = m from rfl]
        rw [replicate_getLast? m [nid0] hm]
        show (Except.ok [nid0] >>= _) = _
        rw [exceptBind_ok]
        rw [if_pos (by simp)]
        rw [show (closeTok n j).stop = ((1 : Nat), n + 2 + j) from rfl]
        have e1 : n + 2 + j = n + 1 + (j + 1) := by omega
        rw [e1]
        rw [hrun]

/-- `close_scope` after the scoped atom of the C4 family: it pops all
`n` scopes, leaving both stacks empty. -/
theorem close_scope_run (n nid0 : Nat) (hn : 0 < n) (st : StA)
    (htok : st.tokens = parenToks n) (hi : st.i = (n : Int))
    (hloc : st.loc = ((1 : Nat), n + 1))
    (hplen : st.parens.length = n) (hsc : st.scope_stack = List.replicate n [nid0])
    (hlines : 0 < st.lines.length) :
    ∃ store', close_scope (ENode.atom nid0) "prefix" "suffix" false false [] st =
      Except.ok (store', { st with i := (2 * n : Int), loc := ((1 : Nat), 2 * n + 1), parens := [], scope_stack := [] }) := by
  have hset2 : setprop [(nid0, [("prefix", PyVal.str "")])] nid0 "suffix" (PyVal.str "") =
      [(nid0, [("prefix", PyVal.str ""), ("suffix", PyVal.str "")])] := by
    simp [setprop, setup_props, storeRec, storeModify, fmtSet, fmtGet, List.find?]
  obtain ⟨store', hOK, hrun⟩ := close_loop_run n nid0 n 0 ((((parenToks n).length : Int) + 1) - (n : Int)).toNat
    [(nid0, [("prefix", PyVal.str ""), ("suffix", PyVal.str "")])] "" (n : Int)
    ((1 : Nat), n + 1 + 0) false st htok (by omega) (by rw [hloc]) (by omega) hn
    (by rw [parenToks_length]; omega) hlines hplen hsc (preset_storeOK nid0)
  refine ⟨store', ?_⟩
  unfold close_scope
  rw [show (ENode.atom nid0).nid = nid0 from rfl]
  rw [if_pos (show (fmt_get ([] : Store) nid0 "prefix").isNone = true from rfl)]
  rw [setprop_empty]
  dsimp only
  rw [if_pos (show (fmt_get [(nid0, [("prefix", PyVal.str "")])] nid0 "suffix").isNone = true by
    simp [fmt_get, storeRec, fmtGet, List.find?])]
  rw [hset2]
  rw [if_neg (show ¬(st.parens = []) by
    intro h
    rw [h] at hplen
    simp at hplen
    omega)]
  rw [hsc, replicate_getLast? n [nid0] hn]
  show (Except.ok [nid0] >>= _) = _
  rw [exceptBind_ok]
  rw [if_pos (show nid0 ∈ [nid0] by simp)]
  rw [if_neg (show ¬(false = true) by decide)]
  rw [htok, hi, hloc]
  rw [show ((1 : Nat), n + 1) = ((1 : Nat), n + 1 + 0) from rfl]
  rw [hrun, exceptBind_ok]
  dsimp only
  rw [htok]

/-- Consuming the atom token of the C4 family with `next(advance=True)`. -/
theorem tg_next_run (n : Nat) (st : StA) (htok : st.tokens = parenToks n)
    (hi : st.i = (n : Int) - 1) :
    tg_next true st = Except.ok (some (nameTok n), { st with i := (n : Int), loc := (nameTok n).stop }) := by
  unfold tg_next
  rw [htok]
  rw [show st.i + 1 = (n : Int) by omega]
  rw [if_neg (by rw [parenToks_length]; omega)]
  rw [parenToks_get_name n, exceptBind_ok]
  rw [if_pos rfl]

/-- C4: after the annotator's scoped visit of the atom in the
`n`-times parenthesized family `'('*n + 'a' + ')'*n`, the token
stream's parenthesis-scope stack and the parallel open-paren stack are
both empty: every scope pushed by `open_scope` has been popped by the
matching `close_scope`, for every nesting depth `n` and node identity.
The bracket-hint counter is untouched as well. -/
theorem C4_scope_stack_empty (n nid0 : Nat) :
    ∃ store' st',
      tg_scope_visit (ENode.atom nid0) [] (initStA (parenToks n) (parenSrc n)) =
        Except.ok (store', st') ∧
      st'.parens = [] ∧ st'.scope_stack = [] ∧ st'.hints = 0 := by
  have hlines : 0 < (initStA (parenToks n) (parenSrc n)).lines.length := by
    apply splitLinesKeep_pos
    simp [parenSrc, parenLine]
  rcases Nat.eq_zero_or_pos n with hn | hn
  · subst hn
    unfold tg_scope_visit
    rw [open_scope_run_zero nid0 _ rfl rfl rfl hlines, exceptBind_ok]
    rw [tg_next_run 0 (initStA (parenToks 0) (parenSrc 0)) rfl
      (by show (-1 : Int) = ((0 : Nat) : Int) - 1; norm_num), exceptBind_ok]
    dsimp only
    have hclose : close_scope (ENode.atom nid0) "prefix" "suffix" false false []
        { initStA (parenToks 0) (parenSrc 0) with i := ((0 : Nat) : Int), loc := (nameTok 0).stop } =
        Except.ok (setprop [(nid0, [("prefix", PyVal.str "")])] nid0 "suffix" (PyVal.str ""),
          { initStA (parenToks 0) (parenSrc 0) with i := ((0 : Nat) : Int), loc := (nameTok 0).stop }) := by
      unfold close_scope
      rw [show (ENode.atom nid0).nid = nid0 from rfl]
      rw [if_pos (show (fmt_get ([] : Store) nid0 "prefix").isNone = true from rfl)]
      rw [setprop_empty]
      dsimp only
      rw [if_pos (show (fmt_get [(nid0, [("prefix", PyVal.str "")])] nid0 "suffix").isNone = true by
        simp [fmt_get, storeRec, fmtGet, List.find?])]
      rw [if_pos (show (initStA (parenToks 0) (parenSrc 0)).parens = [] from rfl)]
    rw [hclose]
    exact ⟨_, _, rfl, rfl, rfl, rfl⟩
  · unfold tg_scope_visit
    obtain ⟨P, hPlen, hopen⟩ := open_scope_run_pos n nid0 hn _ rfl rfl rfl rfl rfl hlines
    rw [hopen, exceptBind_ok]
    rw [tg_next_run n _ rfl rfl, exceptBind_ok]
    dsimp only
    obtain ⟨store', hclose⟩ := close_scope_run n nid0 hn { tokens := (initStA (parenToks n) (parenSrc n)).tokens, parens := P, hints := (initStA (parenToks n) (parenSrc n)).hints, scope_stack := List.replicate n [nid0], lines := (initStA (parenToks n) (parenSrc n)).lines, i := (n : Int), loc := (nameTok n).stop } rfl rfl rfl hPlen rfl hlines
    rw [hclose]
    exact ⟨store', _, rfl, rfl, rfl, rfl⟩

end Pasta
